import Mathlib

/-!
# Verification of the solar deal tracker bot

A shallow embedding, in Lean 4, of the core logic of the deal-tracker chat
bot (files `solar_deal_tracker.py`, `solar_deal_tracker_dev.py`,
`solar_deal_tracker_dev2.py`): the ledger store, the `#sold` command
parsing, the deal state machine, leaderboard aggregation, and the
day/week/month period-boundary calculator, together with theorems settling
the specification's claims about them.

Python floats are modelled as rationals (`ℚ`); the claims checked here only
compare magnitudes against `0` and add them, where the two agree.
Timestamps (ISO-8601 strings in the source, compared lexicographically) are
modelled as natural numbers ordered the same way.  String helpers
(`lower`, `strip`, `split`) are re-implemented structurally on character
lists so that all definitions evaluate inside the kernel; they model the
ASCII behaviour of the Python originals.
-/

namespace SolarBot

/-! ## ASCII string helpers (models of Python `str.lower`, `str.strip`, `str.split`) -/

/-- ASCII model of Python `str.lower` on a single character. -/
def lower_char (c : Char) : Char :=
  if 'A' ≤ c ∧ c ≤ 'Z' then Char.ofNat (c.toNat + 32) else c

/-- Model of Python `str.lower` (ASCII range). -/
def py_lower (s : String) : String :=
  ⟨s.data.map lower_char⟩

/-- Whitespace test used by `strip`/`split` (ASCII whitespace). -/
def is_space (c : Char) : Bool :=
  c = ' ' || c = '\t' || c = '\n' || c = '\r'

/-- Model of Python `str.strip`: drop leading and trailing whitespace. -/
def strip_chars (l : List Char) : List Char :=
  ((l.dropWhile is_space).reverse.dropWhile is_space).reverse

/-- Model of Python `str.strip` on strings. -/
def py_strip (s : String) : String :=
  ⟨strip_chars s.data⟩

/-! ## The deal record (dict created by `_add_deal` in `solar_deal_tracker_dev.py`) -/

/-- One deal record, with exactly the keys the dev bot stores.
`closer` is the legacy extra key set by the `#sold` existing-deal path. -/
structure Deal where
  id : Nat
  guild_id : Nat
  setter_id : Option Nat
  setter_name : Option String
  closer_id : Option Nat
  closer_name : Option String
  closer : Option String
  customer_name : String
  kw : Option ℚ
  deal_type : Option String
  status : String
  loss_reason : Option String
  loss_reason_detail : Option String
  created_at : Option Nat
  closed_at : Option Nat
  no_sale_at : Option Nat
  canceled_at : Option Nat
deriving DecidableEq, Repr

/-- Model of `_deal_type` from `solar_deal_tracker_dev.py`:
`"battery_only" if kw == 0.0 else "standard"`. -/
def deal_type (kw : ℚ) : String :=
  if kw = 0 then "battery_only" else "standard"

/-- The effective category of a deal inside `_split_by_type`: the stored
`deal_type` if present (`d.get("deal_type")` is not `None`), else recomputed
from `kw` (null magnitude means `standard`). -/
def effective_type (d : Deal) : String :=
  d.deal_type.getD (match d.kw with
    | some k => deal_type k
    | none => "standard")

/-- Model of `_split_by_type` from `solar_deal_tracker_dev.py`: split deals into the
`standard` and `battery_only` lists, considering only sold deals and
preferring the stored `deal_type` field over recomputation from `kw`. -/
def split_by_type : List Deal → List Deal × List Deal
  | [] => ([], [])
  | d :: rest =>
    let (standard, battery) := split_by_type rest
    if d.status = "sold" then
      if effective_type d = "battery_only" then (standard, d :: battery)
      else (d :: standard, battery)
    else (standard, battery)

/-! ## Ledger store persistence -/

/-- A store document: `{"next_id": <int>, "deals": [...]}`. -/
structure Store where
  next_id : Nat
  deals : List Deal
deriving DecidableEq, Repr

/-- The possible outcomes of opening and JSON-parsing the store file, as seen
by `_load_deals`: the file may be missing, unreadable/unparseable (any
exception), or parsed into a document whose `next_id` / `deals` keys may each
be absent. -/
inductive LoadOutcome where
  | missing_file
  | parse_error
  | doc (next_id : Option Nat) (deals : Option (List Deal))
deriving DecidableEq, Repr

/-- Model of `_load_deals` from `solar_deal_tracker_dev.py` / `_dev2.py`, together with
the list of warnings it surfaces to the operator.  The source's
`except Exception:` handler returns the default document without printing or
logging anything, so the warning list is empty on every path. -/
def load_deals : LoadOutcome → Store × List String
  | .missing_file => (⟨1, []⟩, [])
  | .parse_error => (⟨1, []⟩, [])
  | .doc n ds => (⟨n.getD 1, ds.getD []⟩, [])

/-- File-system model for the persistence layer: file name to contents. -/
abbrev FS := String → Option String

/-- Primitive file operations.  `open(path, "w")` truncates the file before
`json.dump` streams the document into it, so an in-place save decomposes into
a truncate followed by a write; `os.replace` is a single atomic rename. -/
inductive FileOp where
  | trunc (path : String)
  | write (path : String) (content : String)
  | rename (src : String) (dst : String)
deriving DecidableEq, Repr

/-- Effect of one file operation on the file system. -/
def apply_file_op (fs : FS) : FileOp → FS
  | .trunc p => fun q => if q = p then some "" else fs q
  | .write p c => fun q => if q = p then some c else fs q
  | .rename s d => fun q => if q = d then fs s else if q = s then none else fs q

/-- Effect of a sequence of file operations. -/
def apply_file_ops (fs : FS) (ops : List FileOp) : FS :=
  ops.foldl apply_file_op fs

/-- Model of `DEALS_FILE` in `solar_deal_tracker_dev.py`. -/
def deals_file : String := "./data/deals.json"

/-- Model of `_save_deals` from `solar_deal_tracker_dev.py` / `_dev2.py` as a sequence
of file operations: write the serialized document to `DEALS_FILE + ".tmp"`,
then `os.replace` it over `DEALS_FILE`. -/
def save_deals_ops (content : String) : List FileOp :=
  [.trunc (deals_file ++ ".tmp"), .write (deals_file ++ ".tmp") content,
   .rename (deals_file ++ ".tmp") deals_file]

/-- Model of `save_json` from `solar_deal_tracker.py` as a sequence of file
operations: it opens the target file itself with mode `"w"` (truncating it)
and dumps the document straight into it. -/
def save_json_ops (path : String) (content : String) : List FileOp :=
  [.trunc path, .write path content]

/-! ## Ledger service operations (`solar_deal_tracker_dev.py`) -/

/-- Model of `_get_guild_deals`: the deals of one organization. -/
def guild_deals (st : Store) (gid : Nat) : List Deal :=
  st.deals.filter (fun d => d.guild_id == gid)

/-- Sort key used by `_find_latest_deal_by_customer`:
`d.get("created_at") or ""`.  ISO timestamps compare lexicographically in
creation order, and the missing value `""` is the least; both are modelled
by `Nat` with `0` for missing. -/
def created_key (d : Deal) : Nat :=
  d.created_at.getD 0

/-- Model of `_find_latest_deal_by_customer`: among the guild's deals whose customer
name matches after strip+lower (optionally restricted to the given
statuses), sort by `created_at` descending — Python's `list.sort` is stable,
modelled by `List.insertionSort` with a ≥ comparison — and return the
first. -/
def find_latest_deal_by_customer (st : Store) (gid : Nat) (customer_name : String)
    (preferred_statuses : Option (List String)) : Option Deal :=
  let customer_lower := py_lower (py_strip customer_name)
  let candidates := (guild_deals st gid).filter (fun d =>
    (py_lower (py_strip d.customer_name) == customer_lower) &&
      match preferred_statuses with
      | none => true
      | some ps => ps.contains d.status)
  (candidates.insertionSort (fun a b => created_key b ≤ created_key a)).head?

/-- Model of `_add_deal`:  take the current `next_id` as the new deal's id, bump the
counter, build the record and append it.  `now` stands for
`_now_utc().isoformat()`. -/
def add_deal (st : Store) (now : Nat) (gid : Nat) (setter_id : Option Nat)
    (setter_name : Option String) (closer_id : Option Nat)
    (closer_name : Option String) (customer_name : String) (kw : Option ℚ)
    (status : String) : Deal × Store :=
  let deal_id := st.next_id
  let deal : Deal :=
    { id := deal_id, guild_id := gid, setter_id := setter_id,
      setter_name := setter_name, closer_id := closer_id,
      closer_name := closer_name, closer := none,
      customer_name := customer_name, kw := kw,
      deal_type := kw.map deal_type, status := status,
      loss_reason := none, loss_reason_detail := none,
      created_at := some now,
      closed_at := if status = "sold" then some now else none,
      no_sale_at := none, canceled_at := none }
  (deal, { next_id := deal_id + 1, deals := st.deals ++ [deal] })

/-- Replace the deal with the given id (the source mutates the found dict in
place inside `DEALS_DATA["deals"]`). -/
def update_deal (st : Store) (i : Nat) (f : Deal → Deal) : Store :=
  { st with deals := st.deals.map (fun d => if d.id = i then f d else d) }

/-- The field updates the `#sold` handler applies to an existing `"set"`
deal (`existing_deal["status"] = "sold"` … `existing_deal["closed_at"]`). -/
def close_update (now : Nat) (closer_id : Nat) (closer_name : String) (kw : ℚ)
    (d : Deal) : Deal :=
  { d with
    status := "sold", closer := some closer_name,
    closer_id := some closer_id, closer_name := some closer_name,
    kw := some kw, deal_type := some (deal_type kw),
    closed_at := some now }

/-- The `#sold Customer Name kW` path of the dev bot's `on_message`: close
the latest `"set"` deal for the customer if one exists, otherwise create a
new sold deal directly (first token after the trigger read as setter name). -/
def sold_cmd (st : Store) (gid : Nat) (closer_id : Nat) (closer_name : String)
    (setter_name_fallback : Option String) (customer_name : String) (kw : ℚ)
    (now : Nat) : Store :=
  match find_latest_deal_by_customer st gid customer_name (some ["set"]) with
  | some d => update_deal st d.id (close_update now closer_id closer_name kw)
  | none =>
    (add_deal st now gid none setter_name_fallback (some closer_id)
      (some closer_name) customer_name (some kw) "sold").2

/-- Results the `#cancel` handler reports back to the channel. -/
inductive CancelResult where
  | not_found
  | already_canceled
  | canceled
deriving DecidableEq, Repr

/-- The `#cancel Customer Name` handler of the dev bot: find the latest deal
for the customer (any status); report when none exists or when it is already
canceled; otherwise mark it canceled (`canceled_after_sign` when it was
sold) and stamp `canceled_at`. -/
def cancel_cmd (st : Store) (gid : Nat) (customer_name : String) (now : Nat) :
    CancelResult × Store :=
  match find_latest_deal_by_customer st gid customer_name none with
  | none => (.not_found, st)
  | some d =>
    if d.status = "canceled" ∨ d.status = "canceled_after_sign" then
      (.already_canceled, st)
    else
      (.canceled, update_deal st d.id (fun x =>
        { x with
          status := (if d.status = "sold" then "canceled_after_sign" else "canceled"),
          canceled_at := some now }))

/-- The `#nosale Customer Name` handler's store mutation: the latest `"set"`
deal is marked `no_sale` with the closer recorded (the loss-reason DM
follow-up is a later, separate mutation). -/
def nosale_cmd (st : Store) (gid : Nat) (customer_name : String)
    (closer_id : Nat) (closer_name : String) (now : Nat) : Store :=
  match find_latest_deal_by_customer st gid customer_name (some ["set"]) with
  | some d => update_deal st d.id (fun x =>
      { x with
        status := "no_sale", no_sale_at := some now,
        closer_id := some closer_id, closer_name := some closer_name })
  | none => st

/-- The `#delete <ID>` handler's store mutation. -/
def delete_by_id (st : Store) (i : Nat) : Store :=
  { st with deals := st.deals.filter (fun d => !(d.id == i)) }

/-- The `#delete Customer Name` handler's store mutation. -/
def delete_by_customer (st : Store) (gid : Nat) (customer_name : String) : Store :=
  match find_latest_deal_by_customer st gid customer_name none with
  | some d => delete_by_id st d.id
  | none => st

/-- The `#clearleaderboard` handler's store mutation. -/
def clear_cmd (st : Store) (gid : Nat) : Store :=
  { st with deals := st.deals.filter (fun d => !(d.guild_id == gid)) }

/-- One store-mutating operation of the dev bot. -/
inductive Op where
  | set_app (gid : Nat) (setter_id : Nat) (setter_name : String)
      (customer : String) (now : Nat)
  | sold (gid : Nat) (closer_id : Nat) (closer_name : String)
      (setter_name_fallback : Option String) (customer : String) (kw : ℚ) (now : Nat)
  | sold_mention (gid : Nat) (setter_id : Nat) (setter_name : String)
      (closer_id : Nat) (closer_name : String) (customer : String) (kw : ℚ) (now : Nat)
  | nosale (gid : Nat) (customer : String) (closer_id : Nat)
      (closer_name : String) (now : Nat)
  | cancel (gid : Nat) (customer : String) (now : Nat)
  | delete_id (gid : Nat) (i : Nat)
  | delete_customer (gid : Nat) (customer : String)
  | clear (gid : Nat)

/-- The store after one operation. -/
def apply_op (st : Store) : Op → Store
  | .set_app gid sid sname customer now =>
    (add_deal st now gid (some sid) (some sname) none none customer none "set").2
  | .sold gid cid cname fallback customer kw now =>
    sold_cmd st gid cid cname fallback customer kw now
  | .sold_mention gid sid sname cid cname customer kw now =>
    (add_deal st now gid (some sid) (some sname) (some cid) (some cname)
      customer (some kw) "sold").2
  | .nosale gid customer cid cname now => nosale_cmd st gid customer cid cname now
  | .cancel gid customer now => (cancel_cmd st gid customer now).2
  | .delete_id _ i => delete_by_id st i
  | .delete_customer gid customer => delete_by_customer st gid customer
  | .clear gid => clear_cmd st gid

/-- The store after a sequence of operations. -/
def apply_ops (st : Store) (ops : List Op) : Store :=
  ops.foldl apply_op st

/-- The id-discipline invariant: ids are pairwise distinct and all below the
counter. -/
def StoreGood (st : Store) : Prop :=
  (st.deals.map (·.id)).Nodup ∧ ∀ d ∈ st.deals, d.id < st.next_id

/-! ## The base variant (`solar_deal_tracker.py`): deals dict and stats -/

/-- Model of Python `str.split()` (split on whitespace runs, no empties). -/
def split_ws (l : List Char) : List (List Char) :=
  let p := l.foldr (fun c (acc : List (List Char) × List Char) =>
    if is_space c then ((if acc.2.isEmpty then acc.1 else acc.2 :: acc.1), [])
    else (acc.1, c :: acc.2)) ([], [])
  if p.2.isEmpty then p.1 else p.2 :: p.1

/-- Python `raw.split()` on strings. -/
def py_split (s : String) : List String :=
  (split_ws s.data).map (fun w => ⟨w⟩)

/-- Python `" ".join(ws)`. -/
def join_spaces : List String → String
  | [] => ""
  | [w] => w
  | w :: rest => w ++ " " ++ join_spaces rest

/-- Model of `normalize_customer_name` from `solar_deal_tracker.py`:
`" ".join(raw.split()).strip().lower()`. -/
def normalize_customer_name (raw : String) : String :=
  py_lower (py_strip (join_spaces (py_split raw)))

/-- A deal record of the base variant (`deals_data["deals"]` values). -/
structure TDeal where
  customer_name : String
  setter_id : Option String
  setter_name : Option String
  status : String
  created_at : Option Nat
  closed_at : Option Nat
  closer_id : Option String
  closer_name : Option String
  kw_size : Option ℚ
  revenue : Option ℚ
deriving DecidableEq, Repr

/-- Per-setter leaderboard stats (`leaderboard_data["setters"]` values);
counters are `Int` because the rollback decrements are unguarded. -/
structure SetterStats where
  username : String
  appointments_set : Int
  appointments_closed : Int
  total_kw : ℚ
  deals : List String
deriving DecidableEq, Repr

/-- Per-closer leaderboard stats (`leaderboard_data["closers"]` values). -/
structure CloserStats where
  username : String
  deals_closed : Int
  total_kw : ℚ
  total_revenue : ℚ
  deals : List String
deriving DecidableEq, Repr

/-- The base variant's whole persistent state: the deals dict (keyed by
normalized customer name) and the two stats dicts (keyed by the stringified
user id).  Python dicts are modelled as insertion-ordered association lists
with unique keys. -/
structure TState where
  deals : List (String × TDeal)
  setters : List (String × SetterStats)
  closers : List (String × CloserStats)
deriving DecidableEq, Repr

/-- Dict lookup. -/
def t_get {α : Type} (l : List (String × α)) (k : String) : Option α :=
  (l.find? (fun p => p.1 == k)).map (·.2)

/-- Dict assignment: replace in place, else append. -/
def t_set {α : Type} (l : List (String × α)) (k : String) (v : α) :
    List (String × α) :=
  if l.any (fun p => p.1 == k) then
    l.map (fun p => if p.1 == k then (p.1, v) else p)
  else l ++ [(k, v)]

/-- Dict item mutation at a key (no-op when the key is absent). -/
def t_modify {α : Type} (l : List (String × α)) (k : String) (f : α → α) :
    List (String × α) :=
  l.map (fun p => if p.1 == k then (p.1, f p.2) else p)

/-- The `#canceled` rollback when the deal was still `"set"`: decrement the
setter's `appointments_set` (the id must be truthy and present). -/
def rollback_set (st : TState) (deal : TDeal) : TState :=
  match deal.setter_id with
  | some s =>
    if !(s == "") && st.setters.any (fun p => p.1 == s) then
      { st with setters := t_modify st.setters s (fun x =>
          { x with appointments_set := x.appointments_set - 1 }) }
    else st
  | none => st

/-- The `#canceled` rollback when the deal was `"sold"`: undo the closer's
and the setter's stats, removing the deal key from their lists. -/
def rollback_sold (st : TState) (deal : TDeal) (key : String) : TState :=
  let kw := deal.kw_size.getD 0
  let rev := deal.revenue.getD 0
  let st1 :=
    match deal.closer_id with
    | some c =>
      if !(c == "") && st.closers.any (fun p => p.1 == c) then
        { st with closers := t_modify st.closers c (fun x =>
            { x with
              deals_closed := x.deals_closed - 1,
              total_kw := x.total_kw - kw,
              total_revenue := x.total_revenue - rev,
              deals := x.deals.erase key }) }
      else st
    | none => st
  match deal.setter_id with
  | some s =>
    if !(s == "") && st1.setters.any (fun p => p.1 == s) then
      { st1 with setters := t_modify st1.setters s (fun x =>
          { x with
            appointments_closed := x.appointments_closed - 1,
            total_kw := x.total_kw - kw,
            deals := x.deals.erase key }) }
    else st1
  | none => st1

/-- Results reported by the base variant's `#canceled` handler. -/
inductive TCancelResult where
  | no_permission
  | not_found
  | ok (prev_status : String)
deriving DecidableEq, Repr

/-- The `#canceled Name` handler of `solar_deal_tracker.py`: permission
check, lookup by normalized name, stats rollback depending on the previous
status, then unconditionally set the status to `"canceled"`.  There is no
already-canceled branch: re-canceling reports an ordinary cancellation. -/
def canceled_cmd_tracker (st : TState) (is_admin_or_manager : Bool)
    (raw_name : String) : TCancelResult × TState :=
  if !is_admin_or_manager then (.no_permission, st)
  else
    match t_get st.deals (normalize_customer_name raw_name) with
    | none => (.not_found, st)
    | some deal =>
      let key := normalize_customer_name deal.customer_name
      let st1 :=
        if deal.status = "set" then rollback_set st deal
        else if deal.status = "sold" then rollback_sold st deal key
        else st
      (.ok deal.status,
        { st1 with deals := (t_set st1.deals (normalize_customer_name raw_name)
            { deal with status := "canceled" }) })

/-! ## Aggregation engine (`_aggregate_by_role` in `solar_deal_tracker_dev.py`) -/

/-- The role a leaderboard section aggregates over (`'closer'` or
`'setter'`). -/
inductive Role where
  | closer
  | setter
deriving DecidableEq, Repr

/-- Model of `d.get(f"{role}_id")`. -/
def role_id (d : Deal) : Role → Option Nat
  | .closer => d.closer_id
  | .setter => d.setter_id

/-- Model of `d.get(f"{role}_name")`. -/
def role_name (d : Deal) : Role → Option String
  | .closer => d.closer_name
  | .setter => d.setter_name

/-- Model of `(d.get(f"{role}_name") or "").strip()`. -/
def role_name_str (d : Deal) (r : Role) : String :=
  py_strip ((role_name d r).getD "")

/-- Whether `_aggregate_by_role` counts the deal at all: it must be sold and
its role display name must be non-blank (`if not name: continue`). -/
def elig (r : Role) (d : Deal) : Bool :=
  (d.status == "sold") && !(role_name_str d r == "")

/-- The grouping key: `str(uid) if uid else name.lower()` — the stringified
id when it is truthy (present and nonzero), else the lowercased stripped
name. -/
def agg_key (uid : Option Nat) (nm : String) : String :=
  match uid with
  | some u => if u = 0 then py_lower nm else toString u
  | none => py_lower nm

/-- The grouping key of a deal for a role. -/
def key_of (r : Role) (d : Deal) : String :=
  agg_key (role_id d r) (role_name_str d r)

/-- Model of `float(d.get("kw") or 0.0)`: null magnitudes count as 0. -/
def kw_val (d : Deal) : ℚ :=
  d.kw.getD 0

/-- One row of the aggregation (`{id, name, deals, kw}`). -/
structure AggRow where
  id : Option Nat
  name : String
  deals : Nat
  kw : ℚ
deriving DecidableEq, Repr

/-- One iteration of the `for d in deals` loop of `_aggregate_by_role`,
acting on the insertion-ordered dict `stats` (keys unique): skip non-sold or
blank-named deals; insert a fresh row for an unseen key; bump `deals`/`kw`
for a seen one. -/
def agg_step (r : Role) (acc : List (String × AggRow)) (d : Deal) :
    List (String × AggRow) :=
  if elig r d then
    let key := key_of r d
    if acc.any (fun p => p.1 == key) then
      t_modify acc key (fun row =>
        { row with deals := row.deals + 1, kw := row.kw + kw_val d })
    else
      acc ++ [(key,
        { id := role_id d r, name := role_name_str d r, deals := 1,
          kw := kw_val d })]
  else acc

/-- Model of `list(stats.values())` after the loop: the unsorted group rows in
insertion order. -/
def agg_groups (deals : List Deal) (r : Role) : List AggRow :=
  (deals.foldl (agg_step r) []).map Prod.snd

/-- The sort key of `out.sort(key=lambda x: (x["deals"], x["kw"]), reverse=True)`. -/
def sort_key (x : AggRow) : Nat × ℚ :=
  (x.deals, x.kw)

/-- Row ordering: `a` may precede `b` in the reverse-sorted output: strictly more deals,
or equally many and at least as much kW.  A stable sort with this relation
is exactly Python's stable `list.sort(..., reverse=True)`. -/
def row_ge (a b : AggRow) : Prop :=
  b.deals < a.deals ∨ (b.deals = a.deals ∧ b.kw ≤ a.kw)

instance : DecidableRel row_ge := fun a b => by
  unfold row_ge; infer_instance

instance : IsTotal AggRow row_ge := by
  constructor
  intro a b
  rcases lt_trichotomy a.deals b.deals with h | h | h
  · exact Or.inr (Or.inl h)
  · rcases le_total b.kw a.kw with hk | hk
    · exact Or.inl (Or.inr ⟨h.symm, hk⟩)
    · exact Or.inr (Or.inr ⟨h, hk⟩)
  · exact Or.inl (Or.inl h)

instance : IsTrans AggRow row_ge := by
  constructor
  intro a b c hab hbc
  rcases hab with h1 | ⟨h1, h1'⟩ <;> rcases hbc with h2 | ⟨h2, h2'⟩
  · exact Or.inl (h2.trans h1)
  · exact Or.inl (h2 ▸ h1)
  · exact Or.inl (h1 ▸ h2)
  · exact Or.inr ⟨h2.trans h1, h2'.trans h1'⟩

/-- Model of `_aggregate_by_role`: group, then stable-sort by `(deals, kw)`
descending. -/
def aggregate_by_role (deals : List Deal) (r : Role) : List AggRow :=
  List.insertionSort row_ge (agg_groups deals r)

/-- The sold, non-blank-named deals of `l` grouped under key `k`. -/
def matching (r : Role) (k : String) (l : List Deal) : List Deal :=
  l.filter (fun d => elig r d && (key_of r d == k))

/-- Loop invariant of `_aggregate_by_role`'s dict after processing `l`:
keys are unique, each row's key is recomputable from its stored id and
name, each row counts and sums exactly its key's matching deals, and every
counted deal's key is present. -/
def AccOk (r : Role) (l : List Deal) (acc : List (String × AggRow)) : Prop :=
  (acc.map Prod.fst).Nodup ∧
  (∀ p ∈ acc, p.1 = agg_key p.2.id p.2.name ∧
    p.2.deals = (matching r p.1 l).length ∧
    p.2.kw = ((matching r p.1 l).map kw_val).sum) ∧
  (∀ d ∈ l, elig r d = true → key_of r d ∈ acc.map Prod.fst)

/-! ## Python `float()` and the `#sold` command grammar -/

/-- Value of a run of decimal digit characters. -/
def digits_val (l : List Char) : Nat :=
  l.foldl (fun a c => 10 * a + (c.toNat - 48)) 0

/-- A non-empty run of decimal digits. -/
def is_digits (l : List Char) : Bool :=
  !l.isEmpty && l.all (·.isDigit)

/-- Split a character list on every occurrence of a separator. -/
def split_on_char (ch : Char) (l : List Char) : List (List Char) :=
  l.foldr (fun c acc =>
    match acc with
    | [] => [[c]]
    | h :: t => if c = ch then [] :: h :: t else (c :: h) :: t) [[]]

/-- Unsigned decimal mantissa accepted by Python `float()`: digits, or
digits on at least one side of a single dot. -/
def parse_unsigned_mantissa (l : List Char) : Option ℚ :=
  match split_on_char '.' l with
  | [i] => if is_digits i then some (digits_val i) else none
  | [i, f] =>
    if (i.all (·.isDigit)) && (f.all (·.isDigit)) && !(i.isEmpty && f.isEmpty) then
      some ((digits_val i : ℚ) + (digits_val f : ℚ) / (10 : ℚ) ^ f.length)
    else none
  | _ => none

/-- Signed mantissa: an optional leading `+`/`-`. -/
def parse_signed_mantissa (l : List Char) : Option ℚ :=
  match l with
  | '-' :: rest => (parse_unsigned_mantissa rest).map Neg.neg
  | '+' :: rest => parse_unsigned_mantissa rest
  | _ => parse_unsigned_mantissa l

/-- Signed decimal exponent. -/
def parse_exp (l : List Char) : Option Int :=
  match l with
  | '-' :: rest => if is_digits rest then some (-(digits_val rest : Int)) else none
  | '+' :: rest => if is_digits rest then some (digits_val rest : Int) else none
  | _ => if is_digits l then some (digits_val l : Int) else none

/-- Model of Python `float(token)` on whitespace-free tokens, as an exact
rational: optional sign, decimal mantissa, optional case-insensitive
exponent part.  (`inf`/`nan` and underscore separators, which no claim
touches, are omitted; lowercasing the token first only affects the `e`, as
any other letter is rejected either way.) -/
def parse_float_chars (l : List Char) : Option ℚ :=
  match split_on_char 'e' (l.map lower_char) with
  | [m] => parse_signed_mantissa m
  | [m, ex] =>
    match parse_signed_mantissa m, parse_exp ex with
    | some q, some e => some (q * (10 : ℚ) ^ e)
    | _, _ => none
  | _ => none

/-- Model of `float()` on a string token. -/
def parse_float (s : String) : Option ℚ :=
  parse_float_chars s.data

/-! ## Period Boundary Calculator (`_period_bounds`)

Civil-calendar model: proleptic Gregorian dates, `to_ordinal` as in Python's
`date.toordinal()` (0001-01-01 is day 1, a Monday), wall-clock instants as
minutes since `0001-01-01T00:00`, and the `America/Chicago` zone (`LOCAL_TZ`)
with the post-2007 US DST rule: CDT (UTC-5) from the second Sunday of March
02:00 local to the first Sunday of November 02:00 local, CST (UTC-6)
otherwise.  `datetime.astimezone` conversions become the `local_to_utc` /
`utc_to_local` functions below; `fold=0` resolution of the nonexistent
spring-forward hour maps it with the pre-transition offset, so the CDT
window on the local side starts at 03:00 wall clock. -/

/-- Gregorian leap year (`calendar.isleap` rule). -/
def is_leap (y : Nat) : Bool :=
  decide ((y % 4 = 0 ∧ y % 100 ≠ 0) ∨ y % 400 = 0)

/-- 1 in a leap year, else 0. -/
def leap_add (y : Nat) : Nat :=
  if is_leap y then 1 else 0

/-- Length of a month. -/
def days_in_month (y : Nat) : Nat → Nat
  | 2 => 28 + leap_add y
  | 4 => 30
  | 6 => 30
  | 9 => 30
  | 11 => 30
  | _ => 31

/-- Days in year `y` before the first of the month. -/
def days_before_month (y : Nat) : Nat → Nat
  | 1 => 0
  | 2 => 31
  | 3 => 59 + leap_add y
  | 4 => 90 + leap_add y
  | 5 => 120 + leap_add y
  | 6 => 151 + leap_add y
  | 7 => 181 + leap_add y
  | 8 => 212 + leap_add y
  | 9 => 243 + leap_add y
  | 10 => 273 + leap_add y
  | 11 => 304 + leap_add y
  | _ => 334 + leap_add y

/-- Days before January 1 of year `y` in the proleptic Gregorian calendar
(counting from ordinal 0 = 0001-01-00). -/
def days_before_year (y : Nat) : Nat :=
  365 * (y - 1) + (y - 1) / 4 - (y - 1) / 100 + (y - 1) / 400

/-- A civil date. -/
structure Date where
  year : Nat
  month : Nat
  day : Nat
deriving DecidableEq, Repr

/-- Model of `date.toordinal()`: 0001-01-01 is day 1. -/
def to_ordinal (d : Date) : Nat :=
  days_before_year d.year + days_before_month d.year d.month + d.day

/-- Model of `date.weekday()` of the date with this ordinal: Monday is 0; ordinal 1
was a Monday. -/
def weekday_of_ordinal (n : Nat) : Nat :=
  (n - 1) % 7

/-- Model of `d.weekday()`. -/
def Date.weekday (d : Date) : Nat :=
  weekday_of_ordinal (to_ordinal d)

/-- A well-formed calendar date. -/
def Date.Valid (d : Date) : Prop :=
  1 ≤ d.year ∧ 1 ≤ d.month ∧ d.month ≤ 12 ∧ 1 ≤ d.day ∧
    d.day ≤ days_in_month d.year d.month

instance (d : Date) : Decidable d.Valid := by
  unfold Date.Valid; infer_instance

/-- The next civil day. -/
def next_date (d : Date) : Date :=
  if d.day < days_in_month d.year d.month then ⟨d.year, d.month, d.day + 1⟩
  else if d.month < 12 then ⟨d.year, d.month + 1, 1⟩
  else ⟨d.year + 1, 1, 1⟩

/-- The previous civil day. -/
def prev_date (d : Date) : Date :=
  if 2 ≤ d.day then ⟨d.year, d.month, d.day - 1⟩
  else if 2 ≤ d.month then ⟨d.year, d.month - 1, days_in_month d.year (d.month - 1)⟩
  else ⟨d.year - 1, 12, 31⟩

/-- Model of `d - timedelta(days=k)` on dates. -/
def sub_days (d : Date) (k : Nat) : Date :=
  prev_date^[k] d

/-- The inverse of `to_ordinal` (`date.fromordinal`), by the era-based
civil-from-days algorithm (divisions are all by constants, so it evaluates
fast inside the kernel). -/
def from_ordinal (n : Nat) : Date :=
  let z := n + 305
  let era := z / 146097
  let doe := z % 146097
  let yoe := (doe - doe / 1460 + doe / 36524 - doe / 146096) / 365
  let y := yoe + era * 400
  let doy := doe - (365 * yoe + yoe / 4 - yoe / 100)
  let mp := (5 * doy + 2) / 153
  let day := doy - (153 * mp + 2) / 5 + 1
  let month := if mp < 10 then mp + 3 else mp - 9
  if month ≤ 2 then ⟨y + 1, month, day⟩ else ⟨y, month, day⟩

/-- Minutes since 0001-01-01T00:00 of a date's midnight. -/
def midnight_minutes (d : Date) : Nat :=
  (to_ordinal d - 1) * 1440

/-- A wall-clock civil datetime: a date plus minutes past midnight. -/
structure Civil where
  date : Date
  minute : Nat
deriving DecidableEq, Repr

/-- A well-formed civil datetime. -/
def Civil.Valid (c : Civil) : Prop :=
  c.date.Valid ∧ c.minute < 1440

instance (c : Civil) : Decidable c.Valid := by
  unfold Civil.Valid; infer_instance

/-- Wall-clock minutes since the epoch. -/
def Civil.minutes (c : Civil) : Nat :=
  midnight_minutes c.date + c.minute

/-- Ordinal of the first Sunday of a month. -/
def first_sunday_ordinal (y m : Nat) : Nat :=
  let o := to_ordinal ⟨y, m, 1⟩
  o + (6 - weekday_of_ordinal o)

/-- Ordinal of the second Sunday of March (US DST start day). -/
def dst_start_ordinal (y : Nat) : Nat :=
  first_sunday_ordinal y 3 + 7

/-- Ordinal of the first Sunday of November (US DST end day). -/
def dst_end_ordinal (y : Nat) : Nat :=
  first_sunday_ordinal y 11

/-- First CDT wall-clock minute of the year (03:00 on the DST start day:
under `fold=0`, the nonexistent 02:00–02:59 hour keeps the CST offset). -/
def dst_start_local (y : Nat) : Nat :=
  (dst_start_ordinal y - 1) * 1440 + 180

/-- First CST wall-clock minute of the fall (02:00 on the DST end day;
`fold=0` resolves the ambiguous 01:00–01:59 hour to CDT). -/
def dst_end_local (y : Nat) : Nat :=
  (dst_end_ordinal y - 1) * 1440 + 120

/-- The DST start instant in UTC minutes (02:00 CST = 08:00 UTC). -/
def dst_start_utc (y : Nat) : Nat :=
  (dst_start_ordinal y - 1) * 1440 + 480

/-- The DST end instant in UTC minutes (02:00 CDT = 07:00 UTC). -/
def dst_end_utc (y : Nat) : Nat :=
  (dst_end_ordinal y - 1) * 1440 + 420

/-- The civil year a wall-clock minute count falls in. -/
def local_year_of (lm : Nat) : Nat :=
  (from_ordinal (lm / 1440 + 1)).year

/-- Model of `dt.astimezone(timezone.utc)` for a Chicago wall-clock instant:
add back the 5h (CDT) or 6h (CST) offset. -/
def local_to_utc (lm : Nat) : Nat :=
  let y := local_year_of lm
  if dst_start_local y ≤ lm ∧ lm < dst_end_local y then lm + 300 else lm + 360

/-- The civil year a UTC minute count falls in. -/
def utc_year_of (t : Nat) : Nat :=
  (from_ordinal (t / 1440 + 1)).year

/-- Model of `base_dt.astimezone(LOCAL_TZ)` as minutes: subtract the offset in force
at the instant. -/
def utc_to_local (t : Nat) : Nat :=
  let y := utc_year_of t
  if dst_start_utc y ≤ t ∧ t < dst_end_utc y then t - 300 else t - 360

/-- The Chicago civil datetime of a UTC instant. -/
def civil_of_utc (t : Nat) : Civil :=
  let lm := utc_to_local t
  ⟨from_ordinal (lm / 1440 + 1), lm % 1440⟩

/-- The tuple returned by `_period_bounds`. -/
structure Bounds where
  start_utc : Nat
  end_utc : Nat
  start_local : Nat
  end_local : Nat
  label : String
deriving DecidableEq, Repr

/-- Model of `_period_bounds` on the already-converted local civil datetime
(`base_local`): midnight-to-midnight civil boundaries per kind, converted
back to UTC.  `start_local + timedelta(days=k)` on an aware datetime adds
wall-clock days, i.e. `k * 1440` local minutes. -/
def period_bounds_local (kind : String) (c : Civil) : Bounds :=
  let d := c.date
  if kind = "day" ∨ kind = "today" then
    let sl := midnight_minutes d
    ⟨local_to_utc sl, local_to_utc (sl + 1440), sl, sl + 1440,
      "Daily Blitz Scoreboard"⟩
  else if kind = "week" ∨ kind = "thisweek" then
    let monday := sub_days d d.weekday
    let sl := midnight_minutes monday
    ⟨local_to_utc sl, local_to_utc (sl + 7 * 1440), sl, sl + 7 * 1440,
      "Weekly Blitz Scoreboard"⟩
  else if kind = "month" ∨ kind = "thismonth" then
    let sl := midnight_minutes ⟨d.year, d.month, 1⟩
    let e : Date := if d.month = 12 then ⟨d.year + 1, 1, 1⟩
      else ⟨d.year, d.month + 1, 1⟩
    let el := midnight_minutes e
    ⟨local_to_utc sl, local_to_utc el, sl, el, "Monthly Blitz Scoreboard"⟩
  else
    let sl := midnight_minutes d
    ⟨local_to_utc sl, local_to_utc (sl + 1440), sl, sl + 1440,
      "Blitz Scoreboard"⟩

/-- Model of `_period_bounds kind base_dt` for a UTC reference instant (the
`kind.lower()` normalization is applied by the caller of this model). -/
def period_bounds (kind : String) (t : Nat) : Bounds :=
  period_bounds_local kind (civil_of_utc t)

/-- Convenience constructor for UTC instants in the theorems. -/
def utc_minutes (y m d hh mm : Nat) : Nat :=
  (to_ordinal ⟨y, m, d⟩ - 1) * 1440 + hh * 60 + mm

/-- Model of `p.startswith("<@")` on character lists. -/
def starts_with_chars : List Char → List Char → Bool
  | _, [] => true
  | [], _ :: _ => false
  | c :: cs, p :: ps => c = p && starts_with_chars cs ps

/-- The mention-token test of the `#sold` handler:
`p.startswith("<@") and p.endswith(">")`. -/
def is_mention_token (p : String) : Bool :=
  starts_with_chars p.data ['<', '@'] &&
    (match p.data.getLast? with
     | some c => c = '>'
     | none => false)

/-- Outcome of parsing a `#sold` message in `solar_deal_tracker_dev.py`:
the error paths (each `raise ValueError` site), the mention-form intent,
or the customer-lookup intent whose magnitude is the trailing token. -/
inductive SoldParse where
  | too_few_tokens
  | no_mention_token
  | missing_kw
  | invalid_magnitude
  | mention_intent (setter_id : Nat) (setter_name : String)
      (customer : Option String) (kw : ℚ)
  | lookup_intent (customer : String) (kw : ℚ)
deriving DecidableEq, Repr

/-- The parsing portion of the dev bot's `#sold` handler.  `parts` is
`content.split()` (the trigger is `parts[0]`), `mention` is
`message.mentions[0]` when present.  In the no-mention form the customer
name for the pending-deal lookup is everything between the trigger and the
trailing magnitude token (its later reinterpretation when no pending deal
exists is part of the ledger service, not of parsing). -/
def parse_sold (parts : List String) (mention : Option (Nat × String)) :
    SoldParse :=
  if parts.length < 3 then .too_few_tokens
  else
    match mention with
    | some (mid, mname) =>
      if parts.all (fun p => !is_mention_token p) then .no_mention_token
      else
        let idx := parts.findIdx is_mention_token
        if parts.length - idx < 2 then .missing_kw
        else
          match parse_float (parts.getLast?.getD "") with
          | none => .invalid_magnitude
          | some q =>
            let customer_tokens := (parts.drop (idx + 1)).dropLast
            .mention_intent mid mname
              (if customer_tokens.isEmpty then none
               else some (join_spaces customer_tokens)) q
    | none =>
      match parse_float (parts.getLast?.getD "") with
      | none => .invalid_magnitude
      | some q =>
        .lookup_intent (py_strip (join_spaces ((parts.drop 1).dropLast))) q

/-! ## Concrete sample records used by the claim instances -/

/-- A concrete sold deal with magnitude `-1` (negative magnitudes are
accepted by the `#sold` parser, since Python `float` parses `"-1"`). -/
def c2_deal : Deal :=
  { id := 1, guild_id := 10, setter_id := none, setter_name := none,
    closer_id := some 7, closer_name := some "Ann", closer := none,
    customer_name := "Bob", kw := some (-1), deal_type := none,
    status := "sold", loss_reason := none, loss_reason_detail := none,
    created_at := some 0, closed_at := some 0, no_sale_at := none,
    canceled_at := none }

/-- A concrete sold deal whose closer has a numeric id but a blank display
name. -/
def c3_deal : Deal :=
  { id := 1, guild_id := 10, setter_id := none, setter_name := none,
    closer_id := some 7, closer_name := some "", closer := none,
    customer_name := "Bob", kw := some 3, deal_type := some "standard",
    status := "sold", loss_reason := none, loss_reason_detail := none,
    created_at := some 0, closed_at := some 0, no_sale_at := none,
    canceled_at := none }

/-- A concrete already-canceled deal of the base variant. -/
def c4_deal : TDeal :=
  { customer_name := "John Smith", setter_id := none, setter_name := none,
    status := "canceled", created_at := some 0, closed_at := some 1,
    closer_id := some "7", closer_name := some "Ann", kw_size := some 5,
    revenue := none }

/-- A concrete base-variant state holding only that canceled deal. -/
def c4_state : TState :=
  { deals := [("john smith", c4_deal)], setters := [], closers := [] }

end SolarBot

namespace SolarBot

/-! ## Claim C2: category split -/

/-- Characterization: `_split_by_type` computes exactly the two filters of the sold deals by
effective category. -/
theorem split_by_type_eq_filters (l : List Deal) :
    (split_by_type l).1 =
      l.filter (fun d => d.status == "sold" && !(effective_type d == "battery_only")) ∧
    (split_by_type l).2 =
      l.filter (fun d => d.status == "sold" && (effective_type d == "battery_only")) := by
  induction l with
  | nil => simp [split_by_type]
  | cons a rest ih =>
    by_cases hs : a.status = "sold" <;>
      by_cases ht : effective_type a = "battery_only" <;>
        simp [split_by_type, hs, ht, ih.1, ih.2, List.filter_cons]

/-- C2, counterexample: the claim says a deal goes to the primary
(`standard`) category *iff* its magnitude is greater than 0, but a sold deal
with magnitude `-1` is assigned to the primary list by `_split_by_type`
(`_deal_type` sends every nonzero magnitude to `"standard"`), even though
`-1 > 0` is false. -/
theorem C2_counterexample :
    split_by_type [c2_deal] = ([c2_deal], []) ∧
    deal_type (-1 : ℚ) = "standard" ∧ ¬ (0 : ℚ) < (-1 : ℚ) := by
  refine ⟨by decide, by simp [deal_type], by norm_num⟩

/-- C2, amended: for a sold deal whose stored magnitude is non-null (and
whose `deal_type` field is either absent or consistent with its magnitude,
as the bot always writes it), the category split assigns the deal to the
secondary (`battery_only`) list iff its magnitude equals 0 exactly, and to
the primary (`standard`) list iff its magnitude is nonzero; in particular
magnitude 0 is secondary and magnitude 0.1 is primary. -/
theorem C2_split_by_category (l : List Deal) (d : Deal) (m : ℚ)
    (hmem : d ∈ l) (hstatus : d.status = "sold") (hkw : d.kw = some m)
    (htype : d.deal_type = none ∨ d.deal_type = some (deal_type m)) :
    (d ∈ (split_by_type l).2 ↔ m = 0) ∧
    (d ∈ (split_by_type l).1 ↔ m ≠ 0) ∧
    deal_type 0 = "battery_only" ∧ deal_type (1/10 : ℚ) = "standard" := by
  have htype' : effective_type d = deal_type m := by
    rcases htype with h | h <;> simp [effective_type, h, hkw]
  obtain ⟨h1, h2⟩ := split_by_type_eq_filters l
  refine ⟨?_, ?_, by simp [deal_type], by norm_num [deal_type]⟩
  · rw [h2]
    by_cases hm : m = 0 <;>
      simp [List.mem_filter, hmem, hstatus, htype', deal_type, hm]
  · rw [h1]
    by_cases hm : m = 0 <;>
      simp [List.mem_filter, hmem, hstatus, htype', deal_type, hm]

/-- C2, witness: instantiating the amended classification at a concrete
battery-only deal (magnitude 0). -/
theorem C2_split_by_category_witness :
    (({ c2_deal with kw := some 0 } : Deal) ∈
      (split_by_type [{ c2_deal with kw := some 0 }]).2 ↔ (0 : ℚ) = 0) ∧
    (({ c2_deal with kw := some 0 } : Deal) ∈
      (split_by_type [{ c2_deal with kw := some 0 }]).1 ↔ (0 : ℚ) ≠ 0) ∧
    deal_type 0 = "battery_only" ∧ deal_type (1/10 : ℚ) = "standard" :=
  C2_split_by_category [{ c2_deal with kw := some 0 }]
    { c2_deal with kw := some 0 } 0 (by simp) (by rfl) (by rfl)
    (Or.inl (by rfl))

/-! ## Claim C5: atomicity of persists -/

/-- C5, counterexample: the claim says *every* persist of the ledger store is
written to a temporary file and renamed into place, but `save_json` in
`solar_deal_tracker.py` opens the store file itself in `"w"` mode.  Starting
from a file system where `deals_data.json` holds `"OLD"`, interrupting its
save of `"NEW"` after the truncation leaves the file empty — neither the old
nor the new document. -/
theorem C5_counterexample :
    (apply_file_ops (fun p => if p = "deals_data.json" then some "OLD" else none)
        ((save_json_ops "deals_data.json" "NEW").take 1)) "deals_data.json" = some "" ∧
    (some "" : Option String) ≠ some "OLD" ∧ (some "" : Option String) ≠ some "NEW" := by
  refine ⟨by rfl, by decide, by decide⟩

/-- C5, amended: persists through `_save_deals` (the dev variants) are
atomic — the document is written to `DEALS_FILE + ".tmp"` and renamed over
`DEALS_FILE`, so after interrupting the save at any step the store file
holds either its previous contents or the complete new document, and the
completed save installs the new document; `save_json` in the base variant
instead writes the store file in place, where an interrupted write can leave
it truncated. -/
theorem C5_save_deals_atomic (fs : FS) (content : String) (k : Nat) :
    ((apply_file_ops fs ((save_deals_ops content).take k)) deals_file = fs deals_file ∨
      (apply_file_ops fs ((save_deals_ops content).take k)) deals_file = some content) ∧
    (apply_file_ops fs (save_deals_ops content)) deals_file = some content := by
  have hne : deals_file ≠ deals_file ++ ".tmp" := by decide
  constructor
  · match k with
    | 0 => exact Or.inl rfl
    | 1 =>
      exact Or.inl (by simp [apply_file_ops, save_deals_ops, apply_file_op, hne])
    | 2 =>
      exact Or.inl (by simp [apply_file_ops, save_deals_ops, apply_file_op, hne])
    | (n + 3) =>
      refine Or.inr ?_
      simp [apply_file_ops, save_deals_ops, List.take_of_length_le, apply_file_op, hne]
  · simp [apply_file_ops, save_deals_ops, apply_file_op, hne]

/-- C5, witness: running the atomicity statement at a concrete file system,
document and crash point. -/
theorem C5_save_deals_atomic_witness :
    ((apply_file_ops (fun _ => none) ((save_deals_ops "DOC").take 2)) deals_file =
        (fun _ => none : FS) deals_file ∨
      (apply_file_ops (fun _ => none) ((save_deals_ops "DOC").take 2)) deals_file = some "DOC") ∧
    (apply_file_ops (fun _ => none) (save_deals_ops "DOC")) deals_file = some "DOC" :=
  C5_save_deals_atomic (fun _ => none) "DOC" 2

/-! ## Claim C6: load recovery -/

/-- C6, counterexample: the claim says the recovery from a missing or corrupt
store file is surfaced as a warning to the operator, but the
`except Exception:` handler in `_load_deals` returns the empty store without
printing or logging anything — the warning list of a load after a parse
failure is empty. -/
theorem C6_counterexample :
    (load_deals .parse_error).2 = ([] : List String) ∧
    (load_deals .missing_file).2 = ([] : List String) := by
  exact ⟨rfl, rfl⟩

/-- C6, amended: a missing or unparseable store file yields the empty store
(`next_id` 1, no deals) rather than a fatal error, and a parsed document is
completed with the same defaults for absent keys — but the recovery is
silent: no warning is surfaced to the operator on any load path. -/
theorem C6_load_recovers (o : LoadOutcome) :
    (load_deals .missing_file).1 = ⟨1, []⟩ ∧
    (load_deals .parse_error).1 = ⟨1, []⟩ ∧
    (∀ ds, (load_deals (.doc none ds)).1.next_id = 1) ∧
    (∀ n, (load_deals (.doc n none)).1.deals = []) ∧
    (load_deals o).2 = [] := by
  refine ⟨rfl, rfl, fun ds => rfl, fun n => rfl, ?_⟩
  cases o <;> rfl

/-! ## Claims C3 and C10: aggregation -/

/-- Updating through `t_modify` never changes the key list. -/
theorem t_modify_fst {α : Type} (l : List (String × α)) (k : String) (f : α → α) :
    (t_modify l k f).map Prod.fst = l.map Prod.fst := by
  induction l with
  | nil => rfl
  | cons p rest ih =>
    simp only [t_modify, List.map_cons] at ih ⊢
    rw [ih, apply_ite Prod.fst]
    simp

/-- The `_aggregate_by_role` loop invariant survives one iteration. -/
theorem acc_ok_step (r : Role) (l : List Deal) (acc : List (String × AggRow))
    (d : Deal) (h : AccOk r l acc) : AccOk r (l ++ [d]) (agg_step r acc d) := by
  obtain ⟨hnd, hrow, hcomp⟩ := h
  have hmatch : ∀ k, matching r k (l ++ [d]) =
      matching r k l ++
        (if (elig r d && (key_of r d == k)) = true then [d] else []) := by
    intro k
    simp [matching, List.filter_append, List.filter_cons]
  by_cases he : elig r d = true
  · by_cases ha : (acc.any (fun p => p.1 == key_of r d)) = true
    · -- existing key: bump the row
      simp only [agg_step, he, if_true, ha]
      refine ⟨by rw [t_modify_fst]; exact hnd, ?_, ?_⟩
      · intro p' hp'
        obtain ⟨p, hp, hp'eq⟩ := List.mem_map.mp hp'
        obtain ⟨hw, hc, hk⟩ := hrow p hp
        by_cases hpk : (p.1 == key_of r d) = true
        · have hpeq : p.1 = key_of r d := by simpa using hpk
          have hcond : (elig r d && (key_of r d == p.1)) = true := by
            rw [hpeq]
            simp [he]
          rw [← hp'eq, if_pos hpk]
          refine ⟨by simpa using hw, ?_, ?_⟩
          · show p.2.deals + 1 = (matching r p.1 (l ++ [d])).length
            rw [hmatch p.1, if_pos hcond]
            simp [hc]
          · show p.2.kw + kw_val d = ((matching r p.1 (l ++ [d])).map kw_val).sum
            rw [hmatch p.1, if_pos hcond]
            simp [hk]
        · have hne : ¬ key_of r d = p.1 := by
            intro hcontra
            exact hpk (by simp [hcontra])
          have hcond : (elig r d && (key_of r d == p.1)) = false := by
            simp [hne]
          rw [← hp'eq, if_neg hpk]
          refine ⟨hw, ?_, ?_⟩
          · rw [hmatch p.1, if_neg (by simp [hcond])]
            simpa using hc
          · rw [hmatch p.1, if_neg (by simp [hcond])]
            simpa using hk
      · intro d' hd' he'
        rw [t_modify_fst]
        rcases List.mem_append.mp hd' with hd' | hd'
        · exact hcomp d' hd' he'
        · have hd'd : d' = d := by simpa using hd'
          subst hd'd
          obtain ⟨p, hp, hpk⟩ := List.any_eq_true.mp ha
          have hkey : p.1 = key_of r d' := by simpa using hpk
          rw [← hkey]
          exact List.mem_map.mpr ⟨p, hp, rfl⟩
    · -- new key: append a fresh row
      simp only [agg_step, he, if_true, ha, Bool.false_eq_true, if_false]
      have hnotin : key_of r d ∉ acc.map Prod.fst := by
        intro hmem
        obtain ⟨p, hp, hpeq⟩ := List.mem_map.mp hmem
        exact absurd (List.any_eq_true.mpr ⟨p, hp, by simp [hpeq]⟩) ha
      have hempty : matching r (key_of r d) l = [] := by
        simp only [matching]
        rw [List.filter_eq_nil_iff]
        intro a hal
        intro hcontra
        simp only [Bool.and_eq_true, beq_iff_eq] at hcontra
        obtain ⟨hae, hak⟩ := hcontra
        exact hnotin (hak ▸ hcomp a hal hae)
      refine ⟨?_, ?_, ?_⟩
      · simp only [List.map_append, List.map_cons, List.map_nil]
        rw [List.nodup_append]
        refine ⟨hnd, List.nodup_singleton _, ?_⟩
        intro a hak hamem
        simp only [List.mem_singleton] at hamem
        subst hamem
        exact hnotin hak
      · intro p hp
        rcases List.mem_append.mp hp with hp | hp
        · obtain ⟨hw, hc, hk⟩ := hrow p hp
          have hpne : (key_of r d == p.1) = false := by
            simp only [beq_eq_false_iff_ne, ne_eq]
            intro hcontra
            exact hnotin (hcontra ▸ List.mem_map.mpr ⟨p, hp, rfl⟩)
          refine ⟨hw, ?_, ?_⟩
          · rw [hmatch p.1]; simp [hpne, hc]
          · rw [hmatch p.1]; simp [hpne, hk]
        · have hp' : p = (key_of r d,
              { id := role_id d r, name := role_name_str d r, deals := 1,
                kw := kw_val d }) := by simpa using hp
          subst hp'
          refine ⟨rfl, ?_, ?_⟩
          · rw [hmatch (key_of r d), hempty]
            simp [he]
          · rw [hmatch (key_of r d), hempty]
            simp [he]
      · intro d' hd' he'
        simp only [List.map_append, List.map_cons, List.map_nil]
        rcases List.mem_append.mp hd' with hd' | hd'
        · exact List.mem_append.mpr (Or.inl (hcomp d' hd' he'))
        · have hd'd : d' = d := by simpa using hd'
          subst hd'd
          exact List.mem_append.mpr (Or.inr (by simp))
  · -- ineligible deal: nothing changes
    have hmatch' : ∀ k, matching r k (l ++ [d]) = matching r k l := by
      intro k
      rw [hmatch k]
      simp [he]
    simp only [agg_step, he, Bool.false_eq_true, if_false]
    refine ⟨hnd, ?_, ?_⟩
    · intro p hp
      obtain ⟨hw, hc, hk⟩ := hrow p hp
      exact ⟨hw, by rw [hmatch' p.1]; exact hc, by rw [hmatch' p.1]; exact hk⟩
    · intro d' hd' he'
      rcases List.mem_append.mp hd' with hd' | hd'
      · exact hcomp d' hd' he'
      · have hd'd : d' = d := by simpa using hd'
        subst hd'd
        exact absurd he' he

/-- The loop invariant holds after folding any suffix of deals. -/
theorem acc_ok_fold (r : Role) (ds : List Deal) :
    ∀ (l : List Deal) (acc : List (String × AggRow)), AccOk r l acc →
      AccOk r (l ++ ds) (ds.foldl (agg_step r) acc) := by
  induction ds with
  | nil => intro l acc h; simpa using h
  | cons d rest ih =>
    intro l acc h
    have h1 := acc_ok_step r l acc d h
    have h2 := ih (l ++ [d]) (agg_step r acc d) h1
    simpa [List.append_assoc] using h2

/-- The invariant for the completed loop of `_aggregate_by_role`. -/
theorem acc_ok_run (r : Role) (deals : List Deal) :
    AccOk r deals (deals.foldl (agg_step r) []) := by
  have h0 : AccOk r [] [] := by
    refine ⟨List.nodup_nil, ?_, ?_⟩
    · intro p hp; simp at hp
    · intro d hd; simp at hd
  simpa using acc_ok_fold r deals [] [] h0

/-- Inserting into a list moves the element past the strictly greater rows
only; rows of any fixed sort key keep their relative order. -/
theorem orderedInsert_filter_key (a : AggRow) (l : List AggRow) (c : Nat × ℚ) :
    (List.orderedInsert row_ge a l).filter (fun x => decide (sort_key x = c)) =
      if sort_key a = c then
        a :: l.filter (fun x => decide (sort_key x = c))
      else l.filter (fun x => decide (sort_key x = c)) := by
  induction l with
  | nil =>
    by_cases hc : sort_key a = c <;> simp [List.orderedInsert, hc]
  | cons b bs ih =>
    by_cases hab : row_ge a b
    · by_cases hc : sort_key a = c <;> by_cases hbc : sort_key b = c <;>
        simp [hab, hc, hbc, List.filter_cons]
    · have hne : sort_key a ≠ sort_key b := by
        intro hcontra
        apply hab
        have h1 : a.deals = b.deals := congrArg Prod.fst hcontra
        have h2 : a.kw = b.kw := congrArg Prod.snd hcontra
        exact Or.inr ⟨h1.symm, h2.symm.le⟩
      simp only [List.orderedInsert, if_neg hab, List.filter_cons]
      by_cases hc : sort_key a = c
      · have hbc : ¬ sort_key b = c := fun hbc => hne (hc.trans hbc.symm)
        simp [hc, hbc, ih]
      · by_cases hbc : sort_key b = c <;> simp [hc, hbc, ih]

/-- The stable sort keeps, for every sort key, exactly the subsequence of
rows with that key, in their original order. -/
theorem insertionSort_filter_key (l : List AggRow) (c : Nat × ℚ) :
    (List.insertionSort row_ge l).filter (fun x => decide (sort_key x = c)) =
      l.filter (fun x => decide (sort_key x = c)) := by
  induction l with
  | nil => rfl
  | cons d rest ih =>
    simp only [List.insertionSort]
    rw [orderedInsert_filter_key d (List.insertionSort row_ge rest) c]
    by_cases hc : sort_key d = c <;> simp [hc, ih, List.filter_cons]

/-- C3, counterexample: a sold deal carrying a numeric closer id (7) but a
blank closer display name is skipped entirely by `_aggregate_by_role`, so
the aggregation of a list containing only that deal returns no rows at
all — contradicting the claim that the sold deals are grouped by actor
identity with the numeric id as key when present. -/
theorem C3_counterexample :
    aggregate_by_role [c3_deal] .closer = [] ∧
    c3_deal.status = "sold" ∧ c3_deal.closer_id = some 7 := by
  exact ⟨rfl, rfl, rfl⟩

/-- C3, amended: `_aggregate_by_role` groups the sold deals whose display
name for the role is non-blank (blank-named deals are skipped even when an
id is present), keyed by the stringified numeric id when present and
nonzero, else by the lowercased stripped display name; for each returned
row, `deals` is the number of matching deals and `kw` the sum of their
magnitudes with nulls as 0; every counted deal has a row for its key; and
the rows are sorted by `deals` descending with ties broken by `kw`
descending, stably (rows with equal sort keys keep their first-occurrence
order, captured by filter preservation against the unsorted group list). -/
theorem C3_aggregate (deals : List Deal) (role : Role) :
    (∀ r ∈ aggregate_by_role deals role,
      r.deals = (matching role (agg_key r.id r.name) deals).length ∧
      r.kw = ((matching role (agg_key r.id r.name) deals).map kw_val).sum) ∧
    (∀ d ∈ deals, elig role d = true →
      ∃ r ∈ aggregate_by_role deals role,
        agg_key r.id r.name = key_of role d) ∧
    (aggregate_by_role deals role).Sorted row_ge ∧
    (∀ c : Nat × ℚ,
      (aggregate_by_role deals role).filter (fun x => decide (sort_key x = c)) =
        (agg_groups deals role).filter (fun x => decide (sort_key x = c))) := by
  obtain ⟨hnd, hrow, hcomp⟩ := acc_ok_run role deals
  refine ⟨?_, ?_, List.sorted_insertionSort row_ge _, fun c => insertionSort_filter_key _ c⟩
  · intro r hr
    have hr' : r ∈ agg_groups deals role := by
      simpa [aggregate_by_role] using
        (List.mem_insertionSort row_ge).mp hr
    obtain ⟨p, hp, hpeq⟩ := List.mem_map.mp hr'
    obtain ⟨hw, hc, hk⟩ := hrow p hp
    subst hpeq
    rw [← hw]
    exact ⟨hc, hk⟩
  · intro d hd he
    have hkey := hcomp d hd he
    obtain ⟨p, hp, hpeq⟩ := List.mem_map.mp hkey
    obtain ⟨hw, _, _⟩ := hrow p hp
    refine ⟨p.2, ?_, by rw [← hw, hpeq]⟩
    simp only [aggregate_by_role]
    exact (List.mem_insertionSort row_ge).mpr
      (List.mem_map.mpr ⟨p, hp, rfl⟩)

/-- C3, witness: the amended aggregation statement at a one-deal list (a
sold 3 kW deal closed by id 7 named "Ann"). -/
theorem C3_aggregate_witness :
    ∃ r ∈ aggregate_by_role [{ c3_deal with closer_name := some "Ann" }] .closer,
      agg_key r.id r.name = key_of .closer { c3_deal with closer_name := some "Ann" } :=
  (C3_aggregate [{ c3_deal with closer_name := some "Ann" }] .closer).2.1
    { c3_deal with closer_name := some "Ann" } (by simp) (by rfl)

/-- C10: a sold deal whose display name for the aggregated role is missing,
empty, or whitespace-only (so that `(d.get(...) or "").strip()` is empty)
is skipped entirely by `_aggregate_by_role` — even when it carries a
numeric actor id — so inserting such a deal anywhere in the input changes
nothing in the returned rows. -/
theorem C10_blank_name_skipped (l1 l2 : List Deal) (d : Deal) (role : Role)
    (hname : role_name_str d role = "") :
    aggregate_by_role (l1 ++ d :: l2) role = aggregate_by_role (l1 ++ l2) role := by
  have hstep : ∀ acc, agg_step role acc d = acc := by
    intro acc
    have he : elig role d = false := by
      simp [elig, hname]
    simp [agg_step, he]
  simp only [aggregate_by_role, agg_groups, List.foldl_append, List.foldl_cons,
    hstep]

/-- C10, witness: a whitespace-named sold deal with closer id 5 inserted
between two copies of a normal deal leaves the closer aggregation
unchanged. -/
theorem C10_blank_name_skipped_witness :
    aggregate_by_role
        [{ c3_deal with closer_name := some "Ann" },
         { c3_deal with closer_name := some "   ", closer_id := some 5 }]
        .closer =
      aggregate_by_role [{ c3_deal with closer_name := some "Ann" }] .closer :=
  C10_blank_name_skipped [{ c3_deal with closer_name := some "Ann" }] []
    { c3_deal with closer_name := some "   ", closer_id := some 5 } .closer
    (by rfl)

/-! ## Claim C1: period boundaries -/

set_option maxHeartbeats 1000000 in
/-- The day count of a year: `days_before_year` grows by 365 plus the leap
correction. -/
theorem days_before_year_succ (y : Nat) (hy : 1 ≤ y) :
    days_before_year (y + 1) = days_before_year y + 365 + leap_add y := by
  by_cases hl : is_leap y = true
  · have hcond : (y % 4 = 0 ∧ y % 100 ≠ 0) ∨ y % 400 = 0 := by
      simpa [is_leap] using hl
    have hla : leap_add y = 1 := by rw [leap_add, if_pos hl]
    rw [hla]
    unfold days_before_year
    omega
  · have hcond : ¬((y % 4 = 0 ∧ y % 100 ≠ 0) ∨ y % 400 = 0) := by
      simpa [is_leap] using hl
    have hla : leap_add y = 0 := by rw [leap_add, if_neg hl]
    rw [hla]
    unfold days_before_year
    omega

/-- Month table step: `days_before_month` grows month by month by the month length. -/
theorem days_before_month_succ (y m : Nat) (h1 : 1 ≤ m) (h2 : m ≤ 11) :
    days_before_month y (m + 1) = days_before_month y m + days_in_month y m := by
  interval_cases m <;>
    simp [days_before_month, days_in_month, leap_add] <;> omega

/-- Every month has at least one day. -/
theorem days_in_month_pos (y m : Nat) : 1 ≤ days_in_month y m := by
  unfold days_in_month
  split <;> omega

/-- The ordinal of the next civil day is the successor. -/
theorem to_ordinal_next (d : Date) (hv : d.Valid) :
    to_ordinal (next_date d) = to_ordinal d + 1 := by
  obtain ⟨hy, hm1, hm2, hd1, hd2⟩ := hv
  unfold next_date
  by_cases h1 : d.day < days_in_month d.year d.month
  · rw [if_pos h1]
    simp only [to_ordinal]
    omega
  · rw [if_neg h1]
    by_cases h2 : d.month < 12
    · rw [if_pos h2]
      have hstep := days_before_month_succ d.year d.month hm1 (by omega)
      simp only [to_ordinal]
      omega
    · rw [if_neg h2]
      have hm12 : d.month = 12 := by omega
      have hstep := days_before_year_succ d.year hy
      have hd2' : d.day ≤ 31 := by
        rw [hm12] at hd2
        simpa [days_in_month] using hd2
      have hdim : days_in_month d.year 12 = 31 := by simp [days_in_month]
      have h1' : ¬ d.day < 31 := by
        rw [hm12, hdim] at h1
        exact h1
      have hdbm12 : days_before_month d.year 12 = 334 + leap_add d.year := by
        simp [days_before_month]
      have hdbm1 : days_before_month (d.year + 1) 1 = 0 := by
        simp [days_before_month]
      simp only [to_ordinal, hm12]
      omega

/-- Every valid date has a positive ordinal. -/
theorem to_ordinal_pos (d : Date) (hv : d.Valid) : 1 ≤ to_ordinal d := by
  obtain ⟨_, _, _, hd1, _⟩ := hv
  simp only [to_ordinal]
  omega

/-- Stepping back one civil day: validity and the predecessor ordinal. -/
theorem prev_date_spec (d : Date) (hv : d.Valid) (h2 : 2 ≤ to_ordinal d) :
    (prev_date d).Valid ∧ to_ordinal (prev_date d) + 1 = to_ordinal d := by
  obtain ⟨hy, hm1, hm2, hd1, hd2⟩ := hv
  unfold prev_date
  by_cases hday : 2 ≤ d.day
  · rw [if_pos hday]
    refine ⟨⟨hy, hm1, hm2, by show 1 ≤ d.day - 1; omega, ?_⟩, ?_⟩
    · show d.day - 1 ≤ days_in_month d.year d.month
      omega
    · show days_before_year d.year + days_before_month d.year d.month +
        (d.day - 1) + 1 = to_ordinal d
      simp only [to_ordinal]
      omega
  · rw [if_neg hday]
    by_cases hmon : 2 ≤ d.month
    · rw [if_pos hmon]
      have hstep := days_before_month_succ d.year (d.month - 1) (by omega) (by omega)
      have hmm : d.month - 1 + 1 = d.month := by omega
      rw [hmm] at hstep
      have hday1 : d.day = 1 := by omega
      refine ⟨⟨hy, by show 1 ≤ d.month - 1; omega,
        by show d.month - 1 ≤ 12; omega,
        by show 1 ≤ days_in_month d.year (d.month - 1);
           exact days_in_month_pos _ _,
        by show days_in_month d.year (d.month - 1) ≤
             days_in_month d.year (d.month - 1);
           exact le_refl _⟩, ?_⟩
      show days_before_year d.year + days_before_month d.year (d.month - 1) +
        days_in_month d.year (d.month - 1) + 1 = to_ordinal d
      simp only [to_ordinal]
      omega
    · rw [if_neg hmon]
      have hm1' : d.month = 1 := by omega
      have hday1 : d.day = 1 := by omega
      have hdbm1 : days_before_month d.year 1 = 0 := by simp [days_before_month]
      have hordeq : to_ordinal d = days_before_year d.year + 1 := by
        simp only [to_ordinal, hm1', hday1, hdbm1]
      have hy2 : 2 ≤ d.year := by
        by_contra hcon
        have hy1 : d.year = 1 := by omega
        rw [hordeq, hy1] at h2
        simp [days_before_year] at h2
      have hstep := days_before_year_succ (d.year - 1) (by omega)
      have hyy : d.year - 1 + 1 = d.year := by omega
      rw [hyy] at hstep
      have hdim : days_in_month (d.year - 1) 12 = 31 := by simp [days_in_month]
      have hdbm12 : days_before_month (d.year - 1) 12 =
          334 + leap_add (d.year - 1) := by
        simp [days_before_month]
      refine ⟨⟨by show 1 ≤ d.year - 1; omega, by show 1 ≤ 12; omega,
        by show (12 : Nat) ≤ 12; omega, by show 1 ≤ 31; omega,
        by show (31 : Nat) ≤ days_in_month (d.year - 1) 12; rw [hdim]⟩, ?_⟩
      show days_before_year (d.year - 1) +
        days_before_month (d.year - 1) 12 + 31 + 1 = to_ordinal d
      rw [hordeq, hdbm12]
      omega

/-- Date subtraction `d - timedelta(days=k)` subtracts `k` from the ordinal and stays
valid, provided it does not step before day 1. -/
theorem sub_days_spec (d : Date) (hv : d.Valid) :
    ∀ k, k ≤ to_ordinal d - 1 →
      (sub_days d k).Valid ∧ to_ordinal (sub_days d k) = to_ordinal d - k := by
  intro k
  induction k with
  | zero => intro _; exact ⟨hv, by simp [sub_days]⟩
  | succ n ih =>
    intro hk
    have hn := ih (by omega)
    have hpos := to_ordinal_pos d hv
    have hord : 2 ≤ to_ordinal (sub_days d n) := by
      rw [hn.2]
      omega
    have hprev := prev_date_spec (sub_days d n) hn.1 hord
    have hiter : sub_days d (n + 1) = prev_date (sub_days d n) := by
      simp [sub_days, Function.iterate_succ_apply']
    rw [hiter]
    refine ⟨hprev.1, ?_⟩
    have := hprev.2
    rw [hn.2] at this
    omega

/-- The week start computed by `_period_bounds` is the most recent Monday:
its weekday is 0 and it lies at most six days back. -/
theorem week_start_monday (d : Date) (hv : d.Valid) :
    (sub_days d d.weekday).weekday = 0 ∧
    to_ordinal (sub_days d d.weekday) = to_ordinal d - d.weekday ∧
    d.weekday < 7 := by
  have hpos := to_ordinal_pos d hv
  have hwd : d.weekday ≤ to_ordinal d - 1 := by
    simp only [Date.weekday, weekday_of_ordinal]
    exact Nat.mod_le _ _
  have h := sub_days_spec d hv d.weekday hwd
  refine ⟨?_, h.2, ?_⟩
  · simp only [Date.weekday, weekday_of_ordinal] at *
    rw [h.2]
    omega
  · simp only [Date.weekday, weekday_of_ordinal]
    exact Nat.mod_lt _ (by norm_num)

/-- The month window of `_period_bounds`: the first of the month is at or
before the date, the first of the next month (with December rolling over
the year) is strictly after it, and the window is one month long. -/
theorem month_bounds_ordinal (d : Date) (hv : d.Valid) :
    to_ordinal ⟨d.year, d.month, 1⟩ ≤ to_ordinal d ∧
    to_ordinal d <
      to_ordinal (if d.month = 12 then (⟨d.year + 1, 1, 1⟩ : Date)
        else ⟨d.year, d.month + 1, 1⟩) ∧
    to_ordinal (if d.month = 12 then (⟨d.year + 1, 1, 1⟩ : Date)
        else ⟨d.year, d.month + 1, 1⟩) =
      to_ordinal ⟨d.year, d.month, 1⟩ + days_in_month d.year d.month := by
  obtain ⟨hy, hm1, hm2, hd1, hd2⟩ := hv
  have hfirst : to_ordinal ⟨d.year, d.month, 1⟩ ≤ to_ordinal d := by
    simp only [to_ordinal]
    omega
  by_cases h12 : d.month = 12
  · rw [if_pos h12]
    have hstep := days_before_year_succ d.year hy
    have hdim : days_in_month d.year 12 = 31 := by simp [days_in_month]
    have hdbm12 : days_before_month d.year 12 = 334 + leap_add d.year := by
      simp [days_before_month]
    have hdbm1 : days_before_month (d.year + 1) 1 = 0 := by
      simp [days_before_month]
    have hd2' : d.day ≤ 31 := by
      rw [h12, hdim] at hd2
      exact hd2
    refine ⟨hfirst, ?_, ?_⟩ <;> simp only [to_ordinal, h12] <;> omega
  · rw [if_neg h12]
    have hstep := days_before_month_succ d.year d.month hm1 (by omega)
    refine ⟨hfirst, ?_, ?_⟩ <;> simp only [to_ordinal] <;> omega

set_option maxHeartbeats 3000000 in
/-- C1: for every (valid) reference civil instant in the zone, the Period
Boundary Calculator returns the half-open civil window containing it:
for `day` the start is midnight of the instant's civil date and the end the
next civil midnight; for `week` the start is midnight of the most recent
Monday (weekday 0, at most 6 civil days back) and the end 7 civil days
later; for `month` the start is first-of-month midnight and the end
first-of-next-month midnight with the December→January rollover; both
boundaries are converted back to UTC by the zone rules; and in particular
the `day` bounds at 2026-02-10T15:00Z start at 2026-02-10T06:00Z (midnight
Chicago, CST) and end at the next Chicago midnight, 2026-02-11T06:00Z. -/
theorem C1_period_bounds :
    (∀ c : Civil, c.Valid →
      ((period_bounds_local "day" c).start_local = midnight_minutes c.date ∧
       (period_bounds_local "day" c).end_local =
         midnight_minutes (next_date c.date) ∧
       (period_bounds_local "day" c).start_utc =
         local_to_utc (period_bounds_local "day" c).start_local ∧
       (period_bounds_local "day" c).end_utc =
         local_to_utc (period_bounds_local "day" c).end_local ∧
       (period_bounds_local "day" c).start_local ≤ c.minutes ∧
       c.minutes < (period_bounds_local "day" c).end_local) ∧
      ((period_bounds_local "week" c).start_local =
         midnight_minutes (sub_days c.date c.date.weekday) ∧
       (sub_days c.date c.date.weekday).weekday = 0 ∧
       c.date.weekday < 7 ∧
       (period_bounds_local "week" c).end_local =
         (period_bounds_local "week" c).start_local + 7 * 1440 ∧
       (period_bounds_local "week" c).start_local ≤ c.minutes ∧
       c.minutes < (period_bounds_local "week" c).end_local) ∧
      ((period_bounds_local "month" c).start_local =
         midnight_minutes ⟨c.date.year, c.date.month, 1⟩ ∧
       (period_bounds_local "month" c).end_local =
         midnight_minutes (if c.date.month = 12 then ⟨c.date.year + 1, 1, 1⟩
           else ⟨c.date.year, c.date.month + 1, 1⟩) ∧
       (period_bounds_local "month" c).start_local ≤ c.minutes ∧
       c.minutes < (period_bounds_local "month" c).end_local)) ∧
    ((period_bounds "day" (utc_minutes 2026 2 10 15 0)).start_utc =
       utc_minutes 2026 2 10 6 0 ∧
     (period_bounds "day" (utc_minutes 2026 2 10 15 0)).end_utc =
       utc_minutes 2026 2 11 6 0) := by
  refine ⟨?_, by decide, by decide⟩
  intro c hv
  obtain ⟨hvd, hmin⟩ := hv
  have hpos := to_ordinal_pos c.date hvd
  refine ⟨?_, ?_, ?_⟩
  · -- day
    have hday : period_bounds_local "day" c =
        ⟨local_to_utc (midnight_minutes c.date),
         local_to_utc (midnight_minutes c.date + 1440),
         midnight_minutes c.date, midnight_minutes c.date + 1440,
         "Daily Blitz Scoreboard"⟩ := by
      simp [period_bounds_local]
    have hnext := to_ordinal_next c.date hvd
    rw [hday]
    refine ⟨rfl, ?_, rfl, rfl, ?_, ?_⟩ <;>
      simp only [midnight_minutes, Civil.minutes, hnext] <;> omega
  · -- week
    have hweek : period_bounds_local "week" c =
        ⟨local_to_utc (midnight_minutes (sub_days c.date c.date.weekday)),
         local_to_utc (midnight_minutes (sub_days c.date c.date.weekday) + 7 * 1440),
         midnight_minutes (sub_days c.date c.date.weekday),
         midnight_minutes (sub_days c.date c.date.weekday) + 7 * 1440,
         "Weekly Blitz Scoreboard"⟩ := by
      simp [period_bounds_local]
    obtain ⟨hmon, hord, hlt7⟩ := week_start_monday c.date hvd
    have hwdle : c.date.weekday ≤ to_ordinal c.date - 1 := by
      simp only [Date.weekday, weekday_of_ordinal]
      exact Nat.mod_le _ _
    rw [hweek]
    refine ⟨rfl, hmon, hlt7, rfl, ?_, ?_⟩ <;>
      simp only [midnight_minutes, Civil.minutes, hord] <;> omega
  · -- month
    have hmonth : period_bounds_local "month" c =
        ⟨local_to_utc (midnight_minutes ⟨c.date.year, c.date.month, 1⟩),
         local_to_utc (midnight_minutes (if c.date.month = 12
           then ⟨c.date.year + 1, 1, 1⟩ else ⟨c.date.year, c.date.month + 1, 1⟩)),
         midnight_minutes ⟨c.date.year, c.date.month, 1⟩,
         midnight_minutes (if c.date.month = 12 then ⟨c.date.year + 1, 1, 1⟩
           else ⟨c.date.year, c.date.month + 1, 1⟩),
         "Monthly Blitz Scoreboard"⟩ := by
      simp [period_bounds_local]
    obtain ⟨hle, hlt, _⟩ := month_bounds_ordinal c.date hvd
    have hpos1 := to_ordinal_pos ⟨c.date.year, c.date.month, 1⟩
      ⟨hvd.1, hvd.2.1, hvd.2.2.1, le_refl 1, days_in_month_pos _ _⟩
    rw [hmonth]
    refine ⟨rfl, rfl, ?_, ?_⟩ <;>
      simp only [midnight_minutes, Civil.minutes] <;> omega

/-- C1, witness: the day bounds at the civil instant 2026-02-10 09:00
Chicago (the local time of 2026-02-10T15:00Z). -/
theorem C1_period_bounds_witness :
    (period_bounds_local "day" ⟨⟨2026, 2, 10⟩, 540⟩).start_local =
      midnight_minutes (⟨⟨2026, 2, 10⟩, 540⟩ : Civil).date ∧
    (period_bounds_local "day" ⟨⟨2026, 2, 10⟩, 540⟩).end_local =
      midnight_minutes (next_date (⟨⟨2026, 2, 10⟩, 540⟩ : Civil).date) ∧
    (period_bounds_local "day" ⟨⟨2026, 2, 10⟩, 540⟩).start_utc =
      local_to_utc (period_bounds_local "day" ⟨⟨2026, 2, 10⟩, 540⟩).start_local ∧
    (period_bounds_local "day" ⟨⟨2026, 2, 10⟩, 540⟩).end_utc =
      local_to_utc (period_bounds_local "day" ⟨⟨2026, 2, 10⟩, 540⟩).end_local ∧
    (period_bounds_local "day" ⟨⟨2026, 2, 10⟩, 540⟩).start_local ≤
      (⟨⟨2026, 2, 10⟩, 540⟩ : Civil).minutes ∧
    (⟨⟨2026, 2, 10⟩, 540⟩ : Civil).minutes <
      (period_bounds_local "day" ⟨⟨2026, 2, 10⟩, 540⟩).end_local :=
  (C1_period_bounds.1 ⟨⟨2026, 2, 10⟩, 540⟩ (by decide)).1

/-! ## Claim C8: `#sold` parsing -/

/-- C8, counterexample: the claim says parsing fails with InvalidMagnitude
when the trailing token does not parse as a *non-negative* float, but
`float("-3")` succeeds in Python, so `#sold John -3` produces a lookup
intent with the negative magnitude `-3` instead of failing. -/
theorem C8_counterexample :
    parse_sold ["#sold", "John", "-3"] none = .lookup_intent "John" (-3) ∧
    ¬ (0 : ℚ) ≤ (-3 : ℚ) := by
  exact ⟨by decide, by norm_num⟩

/-- C8, amended: for the dev variant's `#sold` command, parsing fails with
the too-few-tokens error when fewer than 2 tokens follow the trigger;
otherwise, in the no-mention form, it fails with the invalid-magnitude
error exactly when the trailing whitespace-separated token does not parse
as a float at all (signs are accepted, so negative magnitudes produce an
intent), and otherwise yields an intent whose magnitude is the trailing
token's value and whose customer name is the join of the tokens between the
trigger and the magnitude; in the mention form the customer is the possibly
empty token run between the mention and the magnitude.  (The second dev
variant differs: it requires at least 3 tokens after the trigger and a
non-empty customer.) -/
theorem C8_sold_parsing :
    (∀ (parts : List String) (mention : Option (Nat × String)),
      parts.length < 3 → parse_sold parts mention = .too_few_tokens) ∧
    (∀ parts : List String, 3 ≤ parts.length →
      parse_float (parts.getLast?.getD "") = none →
      parse_sold parts none = .invalid_magnitude) ∧
    (∀ (parts : List String) (q : ℚ), 3 ≤ parts.length →
      parse_float (parts.getLast?.getD "") = some q →
      parse_sold parts none =
        .lookup_intent (py_strip (join_spaces ((parts.drop 1).dropLast))) q) ∧
    (∀ (parts : List String) (mid : Nat) (mname : String) (q : ℚ),
      3 ≤ parts.length →
      ¬ (parts.all (fun p => !is_mention_token p)) = true →
      2 ≤ parts.length - parts.findIdx is_mention_token →
      parse_float (parts.getLast?.getD "") = some q →
      parse_sold parts (some (mid, mname)) =
        .mention_intent mid mname
          (if ((parts.drop (parts.findIdx is_mention_token + 1)).dropLast).isEmpty
           then none
           else some (join_spaces
             ((parts.drop (parts.findIdx is_mention_token + 1)).dropLast))) q) ∧
    parse_float "-3" = some (-3) := by
  refine ⟨?_, ?_, ?_, ?_, by decide⟩
  · intro parts mention h
    simp [parse_sold, h]
  · intro parts h hf
    rw [parse_sold, if_neg (by omega)]
    simp [hf]
  · intro parts q h hf
    rw [parse_sold, if_neg (by omega)]
    simp [hf]
  · intro parts mid mname q h hment hidx hf
    rw [parse_sold, if_neg (by omega)]
    simp only [hment, Bool.false_eq_true, if_false, if_neg (by omega : ¬ parts.length - parts.findIdx is_mention_token < 2), hf]

/-- C8, witness: the amended parsing statement run on
`#sold John Smith 6.5`. -/
theorem C8_sold_parsing_witness :
    parse_sold ["#sold", "John", "Smith", "6.5"] none =
      .lookup_intent (py_strip (join_spaces
        (((["#sold", "John", "Smith", "6.5"] : List String).drop 1).dropLast)))
        (13/2 : ℚ) :=
  C8_sold_parsing.2.2.1 ["#sold", "John", "Smith", "6.5"] (13/2 : ℚ)
    (by decide) (by with_unfolding_all decide)

/-! ## Claim C4: cancel idempotence -/

/-- A successful `find?` makes `any` true for the same predicate. -/
theorem any_of_find?_eq_some {α : Type} {p : α → Bool} {l : List α} {x : α}
    (h : l.find? p = some x) : l.any p = true :=
  List.any_eq_true.mpr ⟨x, List.mem_of_find?_eq_some h, List.find?_some h⟩

/-- Mapping the key-targeted replacement over entries none of which carry
the key is a no-op. -/
theorem t_map_keep {α : Type} (k : String) (v : α) (l : List (String × α))
    (hl : ∀ q ∈ l, (q.1 == k) = false) :
    l.map (fun q => if q.1 == k then (q.1, v) else q) = l := by
  induction l with
  | nil => rfl
  | cons q rest ih =>
    have hq := hl q (by simp)
    simp only [List.map_cons, hq, Bool.false_eq_true, if_false]
    rw [ih (fun q' hq' => hl q' (by simp [hq']))]

/-- Writing back the value already stored under a key leaves a dict with
unique keys unchanged. -/
theorem t_set_self {α : Type} (l : List (String × α)) (k : String) (v : α)
    (hnd : (l.map Prod.fst).Nodup) (h : t_get l k = some v) :
    t_set l k v = l := by
  induction l with
  | nil => simp [t_get] at h
  | cons p rest ih =>
    simp only [List.map_cons, List.nodup_cons] at hnd
    by_cases hp : p.1 == k
    · have hv : v = p.2 := by
        simp only [t_get, List.find?_cons, hp, cond_true, Option.map_some'] at h
        exact (Option.some_inj.mp h).symm
      have hk : p.1 = k := by simpa using hp
      have hrest : ∀ q ∈ rest, (q.1 == k) = false := by
        intro q hq
        have hne : q.1 ≠ k := by
          intro hqk
          exact hnd.1 (by
            rw [hk, ← hqk]
            exact List.mem_map.mpr ⟨q, hq, rfl⟩)
        simpa using hne
      simp only [t_set, List.any_cons, hp, Bool.true_or, if_true, List.map_cons,
        hp, if_true]
      rw [t_map_keep k v rest hrest, hv]
    · have hget : t_get rest k = some v := by
        simpa only [t_get, List.find?_cons, hp, cond_false] using h
      have hany : rest.any (fun q => q.1 == k) = true := by
        obtain ⟨q, hq1, _⟩ := Option.map_eq_some'.mp hget
        exact any_of_find?_eq_some hq1
      have hih := ih hnd.2 hget
      simp only [t_set, hany, if_true] at hih
      simp only [t_set, List.any_cons, hp, Bool.false_or, hany, if_true,
        List.map_cons, hp, Bool.false_eq_true, if_false]
      rw [hih]

/-- C4, counterexample: in the base variant's `#canceled` handler there is no
already-canceled branch — re-canceling the already-canceled deal for
"John Smith" reports an ordinary cancellation result (`ok`, carrying the
previous status) rather than an "already canceled" notice; the state is
nevertheless unchanged. -/
theorem C4_counterexample :
    canceled_cmd_tracker c4_state true "John Smith" = (.ok "canceled", c4_state) := by
  decide

/-- C4, amended: canceling is idempotent in state on both cited handlers —
if the latest deal matching the customer is already canceled, the dev
variant's `#cancel` reports "already canceled" and leaves the store
untouched (no `canceled_at` mutation), and the base variant's `#canceled`
performs no second stats rollback and leaves the state unchanged, but
reports an ordinary cancellation result instead of an already-canceled
notice. -/
theorem C4_cancel_idempotent :
    (∀ (st : Store) (gid : Nat) (name : String) (now : Nat) (d : Deal),
      find_latest_deal_by_customer st gid name none = some d →
      (d.status = "canceled" ∨ d.status = "canceled_after_sign") →
      cancel_cmd st gid name now = (.already_canceled, st)) ∧
    (∀ (st : TState) (raw : String) (deal : TDeal),
      (st.deals.map Prod.fst).Nodup →
      t_get st.deals (normalize_customer_name raw) = some deal →
      deal.status = "canceled" →
      canceled_cmd_tracker st true raw = (.ok "canceled", st)) := by
  constructor
  · intro st gid name now d hfind hstatus
    simp only [cancel_cmd, hfind]
    rw [if_pos hstatus]
  · intro st raw deal hnd hget hstatus
    have hdeal : ({ deal with status := "canceled" } : TDeal) = deal := by
      rw [← hstatus]
    simp only [canceled_cmd_tracker, Bool.not_true, Bool.false_eq_true,
      if_false, hget, hstatus]
    rw [if_neg (by decide : ¬("canceled" = "set")),
      if_neg (by decide : ¬("canceled" = "sold")), hdeal,
      t_set_self st.deals (normalize_customer_name raw) deal hnd hget]

/-- C4, witness: running the idempotence statement at a concrete store
holding a canceled deal for "Bob". -/
theorem C4_cancel_idempotent_witness :
    cancel_cmd ⟨2, [{ c2_deal with customer_name := "Bob", status := "canceled" }]⟩
      10 "Bob" 9 =
      (.already_canceled,
        ⟨2, [{ c2_deal with customer_name := "Bob", status := "canceled" }]⟩) :=
  C4_cancel_idempotent.1
    ⟨2, [{ c2_deal with customer_name := "Bob", status := "canceled" }]⟩
    10 "Bob" 9 { c2_deal with customer_name := "Bob", status := "canceled" }
    (by decide) (Or.inl rfl)

/-! ## Claim C7: RecordSale postcondition -/

/-- C7: recording a sale of magnitude `m ≥ 0` yields a sold deal with that
magnitude and a set `closed_at`, on both paths: closing an existing
pending (`"set"`) deal through the `#sold` handler's update, and creating a
new sold deal directly through `_add_deal` — and on the second path the
deal is appended to the store. -/
theorem C7_record_sale (st : Store) (now gid : Nat) (setter_id : Option Nat)
    (setter_name : Option String) (closer_id : Nat) (closer_name : String)
    (customer : String) (d0 : Deal) (m : ℚ) (hm : 0 ≤ m) :
    ((close_update now closer_id closer_name m d0).status = "sold" ∧
      (close_update now closer_id closer_name m d0).kw = some m ∧
      (close_update now closer_id closer_name m d0).closed_at = some now) ∧
    ((add_deal st now gid setter_id setter_name (some closer_id)
        (some closer_name) customer (some m) "sold").1.status = "sold" ∧
      (add_deal st now gid setter_id setter_name (some closer_id)
        (some closer_name) customer (some m) "sold").1.kw = some m ∧
      (add_deal st now gid setter_id setter_name (some closer_id)
        (some closer_name) customer (some m) "sold").1.closed_at = some now ∧
      (add_deal st now gid setter_id setter_name (some closer_id)
          (some closer_name) customer (some m) "sold").2.deals =
        st.deals ++ [(add_deal st now gid setter_id setter_name (some closer_id)
          (some closer_name) customer (some m) "sold").1]) := by
  refine ⟨⟨rfl, rfl, rfl⟩, rfl, rfl, ?_, rfl⟩
  simp [add_deal]

/-- C7, witness: recording a 7.2 kW sale into the empty store. -/
theorem C7_record_sale_witness :
    ((close_update 5 2 "Ben" (36/5) c2_deal).status = "sold" ∧
      (close_update 5 2 "Ben" (36/5) c2_deal).kw = some (36/5) ∧
      (close_update 5 2 "Ben" (36/5) c2_deal).closed_at = some 5) ∧
    ((add_deal ⟨1, []⟩ 5 10 none none (some 2) (some "Ben") "John Smith"
        (some (36/5)) "sold").1.status = "sold" ∧
      (add_deal ⟨1, []⟩ 5 10 none none (some 2) (some "Ben") "John Smith"
        (some (36/5)) "sold").1.kw = some (36/5) ∧
      (add_deal ⟨1, []⟩ 5 10 none none (some 2) (some "Ben") "John Smith"
        (some (36/5)) "sold").1.closed_at = some 5 ∧
      (add_deal ⟨1, []⟩ 5 10 none none (some 2) (some "Ben") "John Smith"
          (some (36/5)) "sold").2.deals =
        (⟨1, []⟩ : Store).deals ++ [(add_deal ⟨1, []⟩ 5 10 none none (some 2)
          (some "Ben") "John Smith" (some (36/5)) "sold").1]) :=
  C7_record_sale ⟨1, []⟩ 5 10 none none 2 "Ben" "John Smith" c2_deal (36/5)
    (by norm_num)

/-! ## Claim C9: id uniqueness and monotone assignment -/

/-- Updating deals with an id-preserving function leaves the id list
unchanged. -/
theorem update_deal_ids (st : Store) (i : Nat) (f : Deal → Deal)
    (hf : ∀ d, (f d).id = d.id) :
    (update_deal st i f).deals.map (·.id) = st.deals.map (·.id) := by
  simp only [update_deal]
  induction st.deals with
  | nil => rfl
  | cons a rest ih =>
    by_cases h : a.id = i <;> simp [h, hf, ih]

/-- Invariant `StoreGood` survives an id-preserving update. -/
theorem store_good_update (st : Store) (i : Nat) (f : Deal → Deal)
    (hf : ∀ d, (f d).id = d.id) (hg : StoreGood st) :
    StoreGood (update_deal st i f) := by
  obtain ⟨hnd, hlt⟩ := hg
  refine ⟨by rw [update_deal_ids st i f hf]; exact hnd, ?_⟩
  intro d hd
  simp only [update_deal, List.mem_map] at hd ⊢
  obtain ⟨a, ha, rfl⟩ := List.mem_map.mp (by simpa [update_deal] using hd)
  by_cases h : a.id = i <;> simp only [h, if_true, if_false, hf] <;>
    [skip; skip] <;> simpa [h, hf] using hlt a ha

/-- Invariant `StoreGood` survives filtering the deal list. -/
theorem store_good_filter (st : Store) (p : Deal → Bool) (hg : StoreGood st) :
    StoreGood { st with deals := st.deals.filter p } := by
  obtain ⟨hnd, hlt⟩ := hg
  refine ⟨?_, fun d hd => hlt d (List.mem_of_mem_filter hd)⟩
  exact hnd.sublist (List.Sublist.map (·.id) st.deals.filter_sublist)

/-- Invariant `StoreGood` survives `_add_deal`, which uses the current counter as the
fresh id and bumps it. -/
theorem store_good_add (st : Store) (now gid : Nat) (si : Option Nat)
    (sn : Option String) (ci : Option Nat) (cn : Option String) (cu : String)
    (kw : Option ℚ) (s : String) (hg : StoreGood st) :
    StoreGood (add_deal st now gid si sn ci cn cu kw s).2 := by
  obtain ⟨hnd, hlt⟩ := hg
  constructor
  · simp only [add_deal, List.map_append, List.map_cons, List.map_nil]
    rw [List.nodup_append]
    refine ⟨hnd, List.nodup_singleton _, ?_⟩
    intro a ha hb
    simp only [List.mem_singleton] at hb
    obtain ⟨d, hd, rfl⟩ := List.mem_map.mp ha
    exact Nat.ne_of_lt (hlt d hd) hb
  · intro d hd
    simp only [add_deal, List.mem_append, List.mem_singleton] at hd
    rcases hd with hd | rfl
    · exact Nat.lt_succ_of_lt (hlt d hd)
    · exact Nat.lt_succ_self _

/-- Invariant `StoreGood` is preserved by every operation of the bot. -/
theorem store_good_apply_op (st : Store) (op : Op) (hg : StoreGood st) :
    StoreGood (apply_op st op) := by
  cases op with
  | set_app gid sid sname customer now => exact store_good_add _ _ _ _ _ _ _ _ _ _ hg
  | sold gid cid cname fallback customer kw now =>
    simp only [apply_op, sold_cmd]
    cases find_latest_deal_by_customer st gid customer (some ["set"]) with
    | some d => exact store_good_update _ _ _ (fun x => rfl) hg
    | none => exact store_good_add _ _ _ _ _ _ _ _ _ _ hg
  | sold_mention gid sid sname cid cname customer kw now =>
    exact store_good_add _ _ _ _ _ _ _ _ _ _ hg
  | nosale gid customer cid cname now =>
    simp only [apply_op, nosale_cmd]
    cases find_latest_deal_by_customer st gid customer (some ["set"]) with
    | some d => exact store_good_update _ _ _ (fun x => rfl) hg
    | none => exact hg
  | cancel gid customer now =>
    simp only [apply_op, cancel_cmd]
    cases find_latest_deal_by_customer st gid customer none with
    | some d =>
      by_cases h : d.status = "canceled" ∨ d.status = "canceled_after_sign"
      · simpa [h] using hg
      · have hu := store_good_update st d.id (fun x =>
          { x with
            status := (if d.status = "sold" then "canceled_after_sign" else "canceled"),
            canceled_at := some now }) (fun x => rfl) hg
        simpa [h] using hu
    | none => exact hg
  | delete_id gid i => exact store_good_filter _ _ hg
  | delete_customer gid customer =>
    simp only [apply_op, delete_by_customer]
    cases find_latest_deal_by_customer st gid customer none with
    | some d => exact store_good_filter _ _ hg
    | none => exact hg
  | clear gid => exact store_good_filter _ _ hg

/-- Every deal present after an operation either keeps the id of a deal that
was already in the store, or carries the freshly assigned id
`st.next_id`. -/
theorem apply_op_ids (st : Store) (op : Op) :
    ∀ d' ∈ (apply_op st op).deals,
      (∃ d ∈ st.deals, d'.id = d.id) ∨ d'.id = st.next_id := by
  have hupd : ∀ (i : Nat) (f : Deal → Deal), (∀ x, (f x).id = x.id) →
      ∀ d' ∈ (update_deal st i f).deals,
        (∃ d ∈ st.deals, d'.id = d.id) ∨ d'.id = st.next_id := by
    intro i f hf d' hd'
    simp only [update_deal, List.mem_map] at hd'
    obtain ⟨a, ha, rfl⟩ := hd'
    by_cases h : a.id = i
    · exact Or.inl ⟨a, ha, by simp [h, hf]⟩
    · exact Or.inl ⟨a, ha, by simp [h]⟩
  have hadd : ∀ (now gid : Nat) (si : Option Nat) (sn : Option String)
      (ci : Option Nat) (cn : Option String) (cu : String) (kw : Option ℚ)
      (s : String), ∀ d' ∈ (add_deal st now gid si sn ci cn cu kw s).2.deals,
        (∃ d ∈ st.deals, d'.id = d.id) ∨ d'.id = st.next_id := by
    intro now gid si sn ci cn cu kw s d' hd'
    simp only [add_deal, List.mem_append, List.mem_singleton] at hd'
    rcases hd' with hd' | rfl
    · exact Or.inl ⟨d', hd', rfl⟩
    · exact Or.inr rfl
  have hfil : ∀ (p : Deal → Bool), ∀ d' ∈ (st.deals.filter p),
      (∃ d ∈ st.deals, d'.id = d.id) ∨ d'.id = st.next_id :=
    fun p d' hd' => Or.inl ⟨d', List.mem_of_mem_filter hd', rfl⟩
  have hid : ∀ d' ∈ st.deals, (∃ d ∈ st.deals, d'.id = d.id) ∨ d'.id = st.next_id :=
    fun d' hd' => Or.inl ⟨d', hd', rfl⟩
  cases op with
  | set_app gid sid sname customer now => exact hadd _ _ _ _ _ _ _ _ _
  | sold gid cid cname fallback customer kw now =>
    simp only [apply_op, sold_cmd]
    cases find_latest_deal_by_customer st gid customer (some ["set"]) with
    | some d => exact hupd _ _ (fun x => rfl)
    | none => exact hadd _ _ _ _ _ _ _ _ _
  | sold_mention gid sid sname cid cname customer kw now =>
    exact hadd _ _ _ _ _ _ _ _ _
  | nosale gid customer cid cname now =>
    simp only [apply_op, nosale_cmd]
    cases find_latest_deal_by_customer st gid customer (some ["set"]) with
    | some d => exact hupd _ _ (fun x => rfl)
    | none => exact hid
  | cancel gid customer now =>
    simp only [apply_op, cancel_cmd]
    cases find_latest_deal_by_customer st gid customer none with
    | some d =>
      by_cases h : d.status = "canceled" ∨ d.status = "canceled_after_sign"
      · simpa [h] using hid
      · have hu := hupd d.id (fun x =>
          { x with
            status := (if d.status = "sold" then "canceled_after_sign" else "canceled"),
            canceled_at := some now }) (fun x => rfl)
        simpa [h] using hu
    | none => exact hid
  | delete_id gid i => exact hfil _
  | delete_customer gid customer =>
    simp only [apply_op, delete_by_customer, delete_by_id]
    cases find_latest_deal_by_customer st gid customer none with
    | some d => exact hfil _
    | none => exact hid
  | clear gid => exact hfil _

/-- C9: starting from a store whose counter exceeds every stored id and
whose ids are pairwise distinct, `_add_deal` assigns each new deal the
current `next_id` and bumps the counter by one, every operation sequence
preserves distinctness of ids and the counter bound, and a single operation
never changes the id of a surviving deal (each deal after the operation
either keeps an id already in the store or carries the fresh id). -/
theorem C9_id_discipline :
    (∀ (st : Store) (now gid : Nat) (si : Option Nat) (sn : Option String)
      (ci : Option Nat) (cn : Option String) (cu : String) (kw : Option ℚ)
      (s : String),
      (add_deal st now gid si sn ci cn cu kw s).1.id = st.next_id ∧
      (add_deal st now gid si sn ci cn cu kw s).2.next_id = st.next_id + 1) ∧
    (∀ (st : Store) (ops : List Op), StoreGood st → StoreGood (apply_ops st ops)) ∧
    (∀ (st : Store) (op : Op), ∀ d' ∈ (apply_op st op).deals,
      (∃ d ∈ st.deals, d'.id = d.id) ∨ d'.id = st.next_id) := by
  refine ⟨fun st now gid si sn ci cn cu kw s => ⟨rfl, rfl⟩, ?_, apply_op_ids⟩
  intro st ops hg
  induction ops generalizing st with
  | nil => exact hg
  | cons op rest ih => exact ih _ (store_good_apply_op st op hg)

/-- C9, witness: the empty store satisfies the invariant and keeps it over a
concrete operation sequence. -/
theorem C9_id_discipline_witness :
    StoreGood (apply_ops ⟨1, []⟩
      [.set_app 10 3 "Amy" "John Smith" 0,
       .sold 10 4 "Ben" none "John Smith" (36/5) 1]) :=
  C9_id_discipline.2.1 ⟨1, []⟩
    [.set_app 10 3 "Amy" "John Smith" 0,
     .sold 10 4 "Ben" none "John Smith" (36/5) 1]
    ⟨List.nodup_nil, by intro d hd; simp at hd⟩

end SolarBot
